import Mathlib

/-!
Verification of the MCP transport/session/supervisor core of the aidd.md hub
(`src/apps/hub/src-tauri/src/infrastructure/mcp/mcp_client.rs` and
`src/apps/hub/src-tauri/src/infrastructure/process/mcp_process.rs`).

The development shallowly embeds:
* the JSON value model (a model of `serde_json::Value`, with numbers
  restricted to exact integers; floating-point numbers are outside the model),
* compact JSON serialization and parsing (a model of `serde_json::to_string`
  and `serde_json::from_str`; error message texts are not modeled),
* the `Content-Length` framed transport (`write_message` / `read_message`),
* the JSON-RPC client session (`send_request`, initialization handshake,
  `call_tool`, `list_tools`); blocking reads are modeled by consuming a
  `List Char` input stream, and writes by returning the bytes written,
* the process supervisor (`McpProcessManager`), with the operating-system
  behaviour of a child process (liveness probe, kill outcome) supplied as
  data on the modeled `Child`.

Streams of bytes are modeled as `List Char` together with the UTF-8 byte
size of each character, so that `Content-Length` counts exact byte lengths
as the source does.
-/

/-- Model of `serde_json::Value`. Numbers are exact integers (the source
exchanges only integral ids and opaque payloads; floats are outside the
model). Objects are association lists in serialization/iteration order;
`serde_json`'s default `Map` is a `BTreeMap`, so objects built by the
`json!` literals in the source are written with their keys in sorted order,
which is how the literal models below are spelled. -/
inductive Json where
  | null
  | bool (b : Bool)
  | num (i : Int)
  | str (s : String)
  | arr (xs : List Json)
  | obj (es : List (String × Json))
deriving Inhabited

/-- Model of `Value::get(key)` on the result of a parse: fetches the value at
a key of an object (`None` on non-objects). `serde_json`'s map keeps the last
occurrence of a duplicate key, so the lookup takes the last match. -/
def lookupLast (es : List (String × Json)) (k : String) : Option Json :=
  es.foldl (fun acc e => if e.1 = k then some e.2 else acc) none

/-- Model of `serde_json::Value::get(&str)`. -/
def Json.get? : Json → String → Option Json
  | .obj es, k => lookupLast es k
  | _, _ => none

/-- Model of `Value::as_u64`. -/
def Json.asU64? : Json → Option Nat
  | .num i => if 0 ≤ i ∧ i < 18446744073709551616 then some i.toNat else none
  | _ => none

/-- Model of `Value::as_i64`. -/
def Json.asI64? : Json → Option Int
  | .num i => if -9223372036854775808 ≤ i ∧ i < 9223372036854775808 then some i else none
  | _ => none

/-- Model of `Value::as_str`. -/
def Json.asStr? : Json → Option String
  | .str s => some s
  | _ => none

/-! ## Decimal digits

`natChars n` is the decimal representation of `n`, most significant digit
first, produced by a fuel recursion (`n` itself is always enough fuel). -/

/-- The character of the decimal digit `n % 10` shifted onto `acc`. -/
def digitChar10 (n : Nat) : Char := Char.ofNat (48 + n % 10)

def natDigitsGo : Nat → Nat → List Char → List Char
  | 0, _, acc => acc
  | fuel + 1, n, acc =>
      if n < 10 then digitChar10 n :: acc
      else natDigitsGo fuel (n / 10) (digitChar10 n :: acc)

/-- Decimal digit characters of `n`, most significant first. -/
def natChars (n : Nat) : List Char := natDigitsGo (n + 1) n []

/-- Decimal characters of an integer: optional minus sign, then digits.
Models the `itoa`-style formatting `serde_json` uses for integers. -/
def intChars (i : Int) : List Char :=
  if i < 0 then '-' :: natChars i.natAbs else natChars i.natAbs

/-! ## Compact serialization (model of `serde_json::to_string`) -/

/-- Hexadecimal digit character (lowercase), as `serde_json` emits in
`\u00XX` escapes. -/
def hexDig (n : Nat) : Char :=
  if n < 10 then Char.ofNat (48 + n) else Char.ofNat (97 + (n - 10))

/-- JSON escape of one character, following `serde_json`'s table: quote and
backslash, the short escapes for 0x08..0x0D (minus 0x0B), and `\u00XX` for
the remaining control characters; everything else is passed through raw. -/
def escChar (c : Char) : List Char :=
  if c = '"' then ['\\', '"']
  else if c = '\\' then ['\\', '\\']
  else if c.toNat = 8 then ['\\', 'b']
  else if c.toNat = 9 then ['\\', 't']
  else if c.toNat = 10 then ['\\', 'n']
  else if c.toNat = 12 then ['\\', 'f']
  else if c.toNat = 13 then ['\\', 'r']
  else if c.toNat < 32 then ['\\', 'u', '0', '0', hexDig (c.toNat / 16), hexDig (c.toNat % 16)]
  else [c]

/-- Serialized form of a JSON string: quoted, with each character escaped. -/
def serStr (s : String) : List Char :=
  '"' :: (s.data.flatMap escChar ++ ['"'])

mutual
/-- Compact serialization of a JSON value (model of `serde_json::to_string`
applied to a `Value`): no whitespace, object keys in list order. -/
def serJson : Json → List Char
  | .null => "null".data
  | .bool true => "true".data
  | .bool false => "false".data
  | .num i => intChars i
  | .str s => serStr s
  | .arr xs => '[' :: (serItems xs ++ [']'])
  | .obj es => '\x7b' :: (serEntries es ++ ['\x7d'])

/-- Comma-separated serialization of array elements. -/
def serItems : List Json → List Char
  | [] => []
  | [x] => serJson x
  | x :: y :: t => serJson x ++ ',' :: serItems (y :: t)

/-- Comma-separated serialization of object members (`"key":value`). -/
def serEntries : List (String × Json) → List Char
  | [] => []
  | [(k, v)] => serStr k ++ ':' :: serJson v
  | (k, v) :: e :: t => serStr k ++ ':' :: (serJson v ++ ',' :: serEntries (e :: t))
end

/-! ## Parsing (model of `serde_json::from_str`)

The parser is total by a fuel argument; `input.length + 1` fuel always
suffices, and the model's fuel-exhaustion error is unreachable on real runs.
The parser accepts the integer-number fragment (a `.`, `e` or `E` after the
digits is rejected, since floats are outside the model), and `\uXXXX`
escapes outside the surrogate range. -/

/-- JSON insignificant whitespace (space, tab, line feed, carriage return),
exactly the set `serde_json` skips. -/
def wsChar (c : Char) : Bool :=
  c.toNat = 32 || c.toNat = 9 || c.toNat = 10 || c.toNat = 13

def skipWsP : List Char → List Char
  | [] => []
  | c :: r => if wsChar c then skipWsP r else c :: r

/-- Decimal digit test on the character's code point. -/
def isDigitC (c : Char) : Bool := 48 ≤ c.toNat && c.toNat ≤ 57

/-- Splits the longest leading run of decimal digits from the input. -/
def grabDigits : List Char → List Char × List Char
  | [] => ([], [])
  | c :: r =>
      if isDigitC c then
        let p := grabDigits r
        (c :: p.1, p.2)
      else ([], c :: r)

/-- The number denoted by a digit run (most significant first). -/
def digitsToNat (ds : List Char) : Nat :=
  ds.foldl (fun a c => a * 10 + (c.toNat - 48)) 0

/-- Parses one integer numeric token: optional minus sign then digits. A
following `.`, `e` or `E` would make the token a float, which the model
rejects. -/
def parseNumTok (cs : List Char) : Except String (Int × List Char) :=
  let sg : Bool × List Char :=
    if cs.head? = some '-' then (true, cs.tail) else (false, cs)
  let p := grabDigits sg.2
  if p.1.isEmpty then .error "json: invalid number"
  else
    let val : Int := if sg.1 then -(digitsToNat p.1 : Int) else (digitsToNat p.1 : Int)
    match p.2 with
    | c :: _ =>
        if c = '.' ∨ c = 'e' ∨ c = 'E' then .error "model: non-integer number"
        else .ok (val, p.2)
    | [] => .ok (val, p.2)

/-- Value of one hexadecimal digit character. -/
def hexVal? (c : Char) : Option Nat :=
  if 48 ≤ c.toNat ∧ c.toNat ≤ 57 then some (c.toNat - 48)
  else if 97 ≤ c.toNat ∧ c.toNat ≤ 102 then some (c.toNat - 87)
  else if 65 ≤ c.toNat ∧ c.toNat ≤ 70 then some (c.toNat - 55)
  else none

/-- Value of a four-digit hexadecimal escape. -/
def hex4? (a b c d : Char) : Option Nat := do
  let x ← hexVal? a
  let y ← hexVal? b
  let z ← hexVal? c
  let w ← hexVal? d
  return ((x * 16 + y) * 16 + z) * 16 + w

/-- Unescaped character of a single-character escape sequence. -/
def unescChar? : Char → Option Char
  | '"' => some '"'
  | '\\' => some '\\'
  | '/' => some '/'
  | 'b' => some (Char.ofNat 8)
  | 'f' => some (Char.ofNat 12)
  | 'n' => some '\n'
  | 'r' => some '\r'
  | 't' => some '\t'
  | _ => none

/-- Parses the body of a JSON string after the opening quote, accumulating
decoded characters in reverse. Surrogate-pair `\uXXXX` escapes are outside
the model (`Char.ofNat` is applied to the code unit). -/
def parseStrBody (acc : List Char) : List Char → Except String (String × List Char)
  | '"' :: r => .ok (String.mk acc.reverse, r)
  | '\\' :: 'u' :: a :: b :: c :: d :: r =>
      match hex4? a b c d with
      | some n => parseStrBody (Char.ofNat n :: acc) r
      | none => .error "json: invalid unicode escape"
  | '\\' :: e :: r =>
      match unescChar? e with
      | some ch => parseStrBody (ch :: acc) r
      | none => .error "json: invalid escape"
  | [c] =>
      if c = '\\' then .error "json: unterminated string"
      else parseStrBody (c :: acc) []
  | c :: r => parseStrBody (c :: acc) r
  | [] => .error "json: unterminated string"

mutual
/-- Parses one JSON value (model of `serde_json`'s value parser, integer
fragment). Structural on `fuel`. -/
def parseValue : Nat → List Char → Except String (Json × List Char)
  | 0, _ => .error "model: parser fuel exhausted"
  | fuel + 1, cs =>
      match skipWsP cs with
      | [] => .error "json: unexpected end of input"
      | '"' :: tl => (parseStrBody [] tl).map (fun p => (.str p.1, p.2))
      | 't' :: 'r' :: 'u' :: 'e' :: tl => .ok (.bool true, tl)
      | 'f' :: 'a' :: 'l' :: 's' :: 'e' :: tl => .ok (.bool false, tl)
      | 'n' :: 'u' :: 'l' :: 'l' :: tl => .ok (.null, tl)
      | '[' :: tl =>
          (match skipWsP tl with
           | ']' :: tl2 => .ok (.arr [], tl2)
           | tl2 => (parseItems fuel tl2).map (fun p => (.arr p.1, p.2)))
      | '\x7b' :: tl =>
          (match skipWsP tl with
           | '\x7d' :: tl2 => .ok (.obj [], tl2)
           | tl2 => (parseEntries fuel tl2).map (fun p => (.obj p.1, p.2)))
      | c :: tl =>
          if c = '-' || isDigitC c then
            (parseNumTok (c :: tl)).map (fun p => (.num p.1, p.2))
          else .error "json: expected value"

/-- Parses one or more comma-separated array elements up to the closing
bracket. -/
def parseItems : Nat → List Char → Except String (List Json × List Char)
  | 0, _ => .error "model: parser fuel exhausted"
  | fuel + 1, cs =>
      match parseValue fuel cs with
      | .error e => .error e
      | .ok (v, r) =>
          match skipWsP r with
          | ',' :: r2 => (parseItems fuel r2).map (fun p => (v :: p.1, p.2))
          | ']' :: r2 => .ok ([v], r2)
          | _ => .error "json: expected comma or close bracket"

/-- Parses one or more comma-separated object members up to the closing
brace. -/
def parseEntries : Nat → List Char → Except String (List (String × Json) × List Char)
  | 0, _ => .error "model: parser fuel exhausted"
  | fuel + 1, cs =>
      match skipWsP cs with
      | '"' :: r =>
          (match parseStrBody [] r with
           | .error e => .error e
           | .ok (k, r1) =>
               match skipWsP r1 with
               | ':' :: r2 =>
                   (match parseValue fuel r2 with
                    | .error e => .error e
                    | .ok (v, r3) =>
                        match skipWsP r3 with
                        | ',' :: r4 => (parseEntries fuel r4).map (fun p => ((k, v) :: p.1, p.2))
                        | '\x7d' :: r4 => .ok ([(k, v)], r4)
                        | _ => .error "json: expected comma or close brace")
               | _ => .error "json: expected colon")
      | _ => .error "json: expected object key"
end

/-- Model of `serde_json::from_str`: parse one document, allowing only
trailing whitespace. -/
def parseJson (cs : List Char) : Except String Json :=
  match parseValue (cs.length + 1) cs with
  | .error e => .error e
  | .ok (j, r) => if (skipWsP r).isEmpty then .ok j else .error "json: trailing characters"

/-! ## Framed transport (model of `McpClient::write_message` / `read_message`)

The byte stream is a `List Char`; byte counts are UTF-8 sizes. -/

/-- UTF-8 byte length of a character sequence. -/
def utf8Len (cs : List Char) : Nat := (cs.map Char.utf8Size).sum

/-- The header tag `Content-Length:`, as stripped by the source's
`strip_prefix("Content-Length:")`. -/
def hdrTag : List Char :=
  ['C', 'o', 'n', 't', 'e', 'n', 't', '-', 'L', 'e', 'n', 'g', 't', 'h', ':']

/-- The header block `Content-Length: <n>\r\n\r\n` written before a payload. -/
def contentHeader (n : Nat) : List Char :=
  hdrTag ++ ' ' :: (natChars n ++ ['\r', '\n', '\r', '\n'])

/-- Model of `McpClient::write_message`: compact JSON serialization preceded
by a `Content-Length` header giving the payload's exact byte length (the
model returns the bytes written; writes and the flush cannot fail). -/
def write_message (m : Json) : List Char :=
  contentHeader (utf8Len (serJson m)) ++ serJson m

/-- Model of `BufRead::read_line`: the characters up to and including the
first line feed (or the whole input if none), with the rest of the stream. -/
def readLine : List Char → List Char × List Char
  | [] => ([], [])
  | c :: r =>
      if c = '\n' then ([c], r)
      else
        let p := readLine r
        (c :: p.1, p.2)

/-- Unicode whitespace test, as Rust's `char::is_whitespace` used by
`str::trim` (the `White_Space` property). -/
def isRustWs (c : Char) : Bool :=
  c.toNat = 32 || c.toNat = 9 || c.toNat = 10 || c.toNat = 11 || c.toNat = 12 ||
  c.toNat = 13 || c.toNat = 133 || c.toNat = 160 || c.toNat = 5760 ||
  (8192 ≤ c.toNat && c.toNat ≤ 8202) || c.toNat = 8232 || c.toNat = 8233 ||
  c.toNat = 8239 || c.toNat = 8287 || c.toNat = 12288

/-- Model of `str::trim`: drops whitespace from both ends. -/
def trimRust (cs : List Char) : List Char :=
  ((cs.dropWhile isRustWs).reverse.dropWhile isRustWs).reverse

/-- Model of `str::strip_prefix` on character lists: the remainder after an
exact leading occurrence of `pat`, if present. -/
def chopLead : List Char → List Char → Option (List Char)
  | [], cs => some cs
  | _ :: _, [] => none
  | p :: ps, c :: cs => if c = p then chopLead ps cs else none

/-- Model of `str::parse::<usize>` restricted to plain digit strings (the
source only ever parses the decimal value it itself wrote; sign handling and
machine-width overflow are outside the model). -/
def parseNatRust (cs : List Char) : Option Nat :=
  if cs.isEmpty then none
  else if cs.all isDigitC then some (digitsToNat cs) else none

/-- Content-Length value carried by one header line, given the value seen so
far: a line with the tag replaces it (even by `none` on a bad number, as the
source's `.ok()` does), any other line keeps it. -/
def updateCl (cl : Option Nat) (t : List Char) : Option Nat :=
  match chopLead hdrTag t with
  | some v => parseNatRust (trimRust v)
  | none => cl

/-- First phase of `read_message` (source lines 203-223): skip blank lines;
at end of stream fail with the source's EOF error; a line opening with a
brace is one newline-delimited JSON document; otherwise the trimmed line
opens the header block. Structural on `fuel`; `input.length + 1` always
suffices since every iteration consumes at least one character. -/
def scanStart : Nat → List Char → Except String (Sum (Json × List Char) (List Char × List Char))
  | 0, _ => .error "model: fuel exhausted"
  | fuel + 1, input =>
      if input.isEmpty then .error "Server closed connection (EOF)"
      else
        let p := readLine input
        let t := trimRust p.1
        if t.isEmpty then scanStart fuel p.2
        else if t.head? = some '\x7b' then
          match parseJson t with
          | .ok j => .ok (.inl (j, p.2))
          | .error e => .error ("parse response: " ++ e)
        else .ok (.inr (t, p.2))

/-- Header-continuation loop of `read_message` (source lines 233-250): read
lines until a blank one, each tagged line updating the Content-Length value.
Fuelled like `scanStart`. -/
def readHeaderLines : Nat → Option Nat → List Char → Except String (Option Nat × List Char)
  | 0, _, _ => .error "model: fuel exhausted"
  | fuel + 1, cl, input =>
      if input.isEmpty then .error "Server closed connection while reading headers"
      else
        let p := readLine input
        let t := trimRust p.1
        if t.isEmpty then .ok (cl, p.2)
        else readHeaderLines fuel (updateCl cl t) p.2

/-- Model of `Read::read_exact` over the character stream: split off exactly
`n` UTF-8 bytes. `none` models both a premature end of stream and a split
that falls inside one character's encoding (which the source would surface
as a UTF-8 decoding error). -/
def takeUtf8 : Nat → List Char → Option (List Char × List Char)
  | 0, cs => some ([], cs)
  | _ + 1, [] => none
  | n + 1, c :: r =>
      if c.utf8Size ≤ n + 1 then
        (takeUtf8 (n + 1 - c.utf8Size) r).map (fun p => (c :: p.1, p.2))
      else none

/-- Model of `McpClient::read_message`: skip blank lines; accept a bare JSON
line (newline-delimited compatibility mode); otherwise collect the
`Content-Length` value from the header block, read exactly that many bytes
and parse them. Returns the decoded message and the unconsumed stream. -/
def read_message (input : List Char) : Except String (Json × List Char) :=
  match scanStart (input.length + 1) input with
  | .error e => .error e
  | .ok (.inl p) => .ok p
  | .ok (.inr (t, rest)) =>
      match readHeaderLines (rest.length + 1) (updateCl none t) rest with
      | .error e => .error e
      | .ok (none, _) => .error "Missing Content-Length header in MCP response"
      | .ok (some len, rest2) =>
          match takeUtf8 len rest2 with
          | none => .error "read body: unexpected end of stream"
          | some (body, rest3) =>
              match parseJson body with
              | .ok j => .ok (j, rest3)
              | .error e => .error ("parse response: " ++ e)

/-! ## JSON-RPC client session (model of `McpClient`)

The mutable client state (`next_id: AtomicU64`, `initialized: AtomicBool`)
is threaded explicitly. Every operation returns the call's result, the new
state, the bytes written to the child's input, and the unconsumed part of
the child's output stream. Locking is not modeled (the claims are about a
single calling thread). -/

/-- The 64-bit modulus of the `AtomicU64` request counter. -/
def u64Mod : Nat := 18446744073709551616

structure ClientState where
  nextId : Nat
  initialized : Bool
deriving DecidableEq

/-- State of a freshly spawned client (`spawn_with_context` sets
`next_id = 1` and `initialized = false`). -/
def freshClient : ClientState := { nextId := 1, initialized := false }

/-- Result of one client operation. -/
structure CallResult where
  out : Except String Json
  state : ClientState
  written : List Char
  remaining : List Char

/-- The JSON-RPC 2.0 request envelope built by `send_request`. Keys are in
sorted order, as `serde_json`'s `BTreeMap`-backed `json!` object serializes
them. -/
def rpcRequest (id : Nat) (method : String) (params : Json) : Json :=
  .obj [("id", .num id), ("jsonrpc", .str "2.0"), ("method", .str method), ("params", params)]

/-- The JSON-RPC 2.0 notification envelope built by `send_notification`. -/
def rpcNotification (method : String) (params : Json) : Json :=
  .obj [("jsonrpc", .str "2.0"), ("method", .str method), ("params", params)]

/-- Decoding of the matched response (source lines 157-168): an `error`
member fails with its code (default `-1`) and message (default
`Unknown error`); otherwise the `result` payload (default JSON null) is
returned. -/
def decodeResponse (msg : Json) : Except String Json :=
  match msg.get? "error" with
  | some err =>
      let code := ((err.get? "code").bind Json.asI64?).getD (-1)
      let message := ((err.get? "message").bind Json.asStr?).getD "Unknown error"
      .error ("JSON-RPC error " ++ toString code ++ ": " ++ message)
  | none => .ok ((msg.get? "result").getD Json.null)

/-- The correlation read loop of `send_request` (source lines 151-172): read
one message; a message whose `id` is present and equal to the outstanding id
is decoded and returned, anything else (notification or mismatched id) is
discarded and the loop continues. The real loop is unbounded; the model
spends one unit of fuel per message read, and each read consumes at least
one character, so the fuel `input.length + 1` supplied by `send_request`
never runs out before the stream does. -/
def respLoopF : Nat → Nat → List Char → Except String Json × List Char
  | 0, _, input => (.error "model: response loop fuel exhausted", input)
  | fuel + 1, id, input =>
      match read_message input with
      | .error e => (.error e, input)
      | .ok (msg, rest) =>
          match msg.get? "id" with
          | some v =>
              if v.asU64? = some id then (decodeResponse msg, rest)
              else respLoopF fuel id rest
          | none => respLoopF fuel id rest

/-- Model of `McpClient::send_request`: allocate the next id (the `AtomicU64`
wraps at `2^64`), write the framed request, then run the correlation loop. -/
def send_request (st : ClientState) (method : String) (params : Json) (input : List Char) :
    CallResult :=
  let id := st.nextId
  let st1 : ClientState := { st with nextId := (st.nextId + 1) % u64Mod }
  let p := respLoopF (input.length + 1) id input
  { out := p.1, state := st1,
    written := write_message (rpcRequest id method params), remaining := p.2 }

/-- Model of `McpClient::send_notification`: the bytes written (the model's
writes cannot fail, so the source's `Result<(), String>` is always `Ok`). -/
def send_notification (method : String) (params : Json) : List Char :=
  write_message (rpcNotification method params)

/-- The `initialize` request parameters (protocol version, empty
capabilities, client info), keys in sorted order. -/
def initParams : Json :=
  .obj [("capabilities", .obj []),
        ("clientInfo", .obj [("name", .str "aidd-hub"), ("version", .str "1.0.0")]),
        ("protocolVersion", .str "2025-11-05")]

/-- Model of `McpClient::initialize` (the name `init_session` avoids a
reserved word): if already initialized, return the sentinel
`{"already_initialized": true}` without touching the transport; otherwise
send the `initialize` request, and on success fire the
`notifications/initialized` notification and flip the state flag. On a
failed request the flag stays down (callers may retry). -/
def init_session (st : ClientState) (input : List Char) : CallResult :=
  if st.initialized then
    { out := .ok (.obj [("already_initialized", .bool true)]), state := st,
      written := [], remaining := input }
  else
    let r := send_request st "initialize" initParams input
    match r.out with
    | .error e => { r with out := .error e }
    | .ok v =>
        { out := .ok v, state := { r.state with initialized := true },
          written := r.written ++ send_notification "notifications/initialized" (.obj []),
          remaining := r.remaining }

/-- Model of `McpClient::call_tool`: requires initialization, then issues a
`tools/call` request with `{name, arguments}` params (keys sorted). -/
def call_tool (st : ClientState) (name : String) (arguments : Json) (input : List Char) :
    CallResult :=
  if !st.initialized then
    { out := .error "Client not initialized. Call initialize() first.", state := st,
      written := [], remaining := input }
  else
    send_request st "tools/call" (.obj [("arguments", arguments), ("name", .str name)]) input

/-- Model of `McpClient::list_tools`: requires initialization, then issues a
`tools/list` request with empty params. -/
def list_tools (st : ClientState) (input : List Char) : CallResult :=
  if !st.initialized then
    { out := .error "Client not initialized. Call initialize() first.", state := st,
      written := [], remaining := input }
  else
    send_request st "tools/list" (.obj []) input

/-! ## Request-id trace

The id allocated by the `k`-th request-issuing call on one client. Ids are
allocated only inside `send_request` (one `fetch_add` per call), and the
successor state's counter does not depend on the call's arguments or on the
stream, so the canonical trace below covers every sequence of
request-issuing calls. -/

/-- Client state after `k` request-issuing calls on a fresh client. -/
def clientAfter : Nat → ClientState
  | 0 => freshClient
  | k + 1 => (send_request (clientAfter k) "m" Json.null []).state

/-- The request id allocated by the `k`-th (1-indexed) request-issuing call
on one client instance. -/
def nthRequestId (k : Nat) : Nat := (clientAfter (k - 1)).nextId

/-! ## Process supervisor (model of `McpProcessManager`)

The registry (`Mutex<HashMap<String, RunningProcess>>`) is modeled as an
association list in iteration order; the lock is not modeled (each operation
is atomic on the registry). The operating-system behaviour of a child is
carried as data on the modeled `Child` handle: the outcome of `try_wait`
(the liveness probe) and of `kill`. -/

/-- Model of `domain::model::McpServerMode`. -/
inductive McpServerMode where
  | toolLaunched
  | hubHosted
deriving DecidableEq

/-- Model of `domain::model::McpServerStatus`. -/
inductive McpServerStatus where
  | stopped
  | running
  | error
deriving DecidableEq

/-- Model of `domain::model::McpServer`, the status snapshot returned to the
caller. -/
structure McpServer where
  id : String
  name : String
  mode : McpServerMode
  status : McpServerStatus
  pid : Option Nat
  started_at : Option String
  error : Option String
deriving DecidableEq

/-- Outcome of `Child::try_wait` for a tracked process: already exited,
still alive, or a probe error with its display text. -/
inductive ProbeResult where
  | exited
  | alive
  | probeError (msg : String)
deriving DecidableEq

/-- Model of `std::process::Child`: the process id plus the
operating-system behaviour the claims depend on (`try_wait` outcome and
`kill` outcome, `none` meaning the kill succeeds). -/
structure Child where
  pid : Nat
  probe : ProbeResult
  killResult : Option String
deriving DecidableEq

/-- Model of `RunningProcess`, one tracked entry of the registry. -/
structure RunningProcess where
  child : Child
  name : String
  mode : McpServerMode
  started_at : String
deriving DecidableEq

/-- The registry of tracked processes, in iteration order. -/
abbrev Registry : Type := List (String × RunningProcess)

/-- Model of `HashMap::contains_key`. -/
def containsKey (k : String) (reg : Registry) : Bool :=
  reg.any (fun e => e.1 = k)

/-- Model of `HashMap::get`-style lookup (first match; keys are unique in a
real map). -/
def findEntry (k : String) : Registry → Option RunningProcess
  | [] => none
  | e :: r => if e.1 = k then some e.2 else findEntry k r

/-- Model of `HashMap::remove` returning the removed value: the first entry
at the key, with the registry less that entry. -/
def extractEntry (k : String) : Registry → Option (RunningProcess × Registry)
  | [] => none
  | e :: r =>
      if e.1 = k then some (e.2, r)
      else (extractEntry k r).map (fun p => (p.1, e :: p.2))

/-- Model of `HashMap::remove` discarding the value. -/
def eraseKey (k : String) (reg : Registry) : Registry :=
  match extractEntry k reg with
  | some p => p.2
  | none => reg

/-- Configuration of one standard stream at spawn time. -/
inductive PipeCfg where
  | piped
  | inherited
deriving DecidableEq

/-- The spawn request a `Command` builder describes: program, arguments and
the three standard-stream configurations. -/
structure SpawnSpec where
  program : String
  args : List String
  stdinCfg : PipeCfg
  stdoutCfg : PipeCfg
  stderrCfg : PipeCfg
deriving DecidableEq

/-- The `Command` built by `McpProcessManager::start` (source lines 40-45):
program `cmd_args[0]`, arguments `cmd_args[1..]`, and piped stdin, stdout
AND stderr (`.stderr(Stdio::piped())`). -/
def buildCommand (cmdArgs : List String) : SpawnSpec :=
  { program := cmdArgs.headD "", args := cmdArgs.tail,
    stdinCfg := .piped, stdoutCfg := .piped, stderrCfg := .piped }

/-- Model of `resolve_command`: the fixed table from logical package name to
display name and command line. -/
def resolve_command (package : String) : Except String (String × List String) :=
  if package = "monolithic" then .ok ("@aidd.md/mcp", ["npx", "-y", "@aidd.md/mcp"])
  else if package = "core" then .ok ("@aidd.md/mcp-core", ["npx", "-y", "@aidd.md/mcp-core"])
  else if package = "memory" then .ok ("@aidd.md/mcp-memory", ["npx", "-y", "@aidd.md/mcp-memory"])
  else if package = "tools" then .ok ("@aidd.md/mcp-tools", ["npx", "-y", "@aidd.md/mcp-tools"])
  else .error ("Unknown package '" ++ package ++ "'. Valid: monolithic, core, memory, tools")

/-- Model of `McpProcessManager::start`. The operating system's response to
the spawn request is the external parameter `spawner`; the wall clock
(`chrono_now`) is the parameter `now`. On success the new entry is inserted
and a Running snapshot returned; on any failure the registry is unchanged. -/
def start (reg : Registry) (package : String) (mode : McpServerMode)
    (spawner : SpawnSpec → Except String Child) (now : String) :
    Except String McpServer × Registry :=
  if containsKey package reg then
    (.error ("Server '" ++ package ++ "' is already running"), reg)
  else
    match resolve_command package with
    | .error e => (.error e, reg)
    | .ok (name, cmdArgs) =>
        match spawner (buildCommand cmdArgs) with
        | .error e => (.error ("Failed to start " ++ name ++ ": " ++ e), reg)
        | .ok child =>
            (.ok { id := package, name := name, mode := mode, status := .running,
                   pid := some child.pid, started_at := some now, error := none },
             reg ++ [(package, { child := child, name := name, mode := mode, started_at := now })])

/-- One interaction with a child process handle, for observing kill/reap
ordering. -/
inductive ProcAction where
  | kill (pid : Nat)
  | wait (pid : Nat)
deriving DecidableEq

/-- Model of `McpProcessManager::stop`: remove the entry (failing if the id
is untracked), `kill` it — on a kill error returning early WITHOUT the
`wait` — otherwise `wait` (reap) and succeed. The third component is the
sequence of process interactions performed. -/
def stop (reg : Registry) (server_id : String) :
    Except String Unit × Registry × List ProcAction :=
  match extractEntry server_id reg with
  | some (p, reg2) =>
      match p.child.killResult with
      | some e =>
          (.error ("Failed to kill " ++ server_id ++ ": " ++ e), reg2, [.kill p.child.pid])
      | none => (.ok (), reg2, [.kill p.child.pid, .wait p.child.pid])
  | none => (.error ("No running server with id '" ++ server_id ++ "'"), reg, [])

/-- The per-entry teardown loop of `stop_all`: every entry is killed (a kill
error is only logged) and then unconditionally reaped. -/
def drainAll : List (String × RunningProcess) → List ProcAction
  | [] => []
  | e :: r => .kill e.2.child.pid :: .wait e.2.child.pid :: drainAll r

/-- Model of `McpProcessManager::stop_all`: drain the registry, killing and
reaping every entry, always succeeding. -/
def stop_all (reg : Registry) : Except String Unit × Registry × List ProcAction :=
  (.ok (), [], drainAll reg)

/-- The snapshot `get_servers` builds for one tracked entry, and whether the
entry is queued for removal (source lines 105-145): an exited process is
Stopped (no pid, an "exited unexpectedly" error) and queued; a live one is
Running with its pid; a probe failure is Error and NOT queued. -/
def probeEntry (id : String) (p : RunningProcess) : McpServer × Bool :=
  match p.child.probe with
  | .exited =>
      ({ id := id, name := p.name, mode := p.mode, status := .stopped, pid := none,
         started_at := some p.started_at, error := some "Process exited unexpectedly" }, true)
  | .alive =>
      ({ id := id, name := p.name, mode := p.mode, status := .running,
         pid := some p.child.pid, started_at := some p.started_at, error := none }, false)
  | .probeError e =>
      ({ id := id, name := p.name, mode := p.mode, status := .error, pid := none,
         started_at := some p.started_at, error := some ("Status check failed: " ++ e) }, false)

/-- The scan loop of `get_servers`: the snapshots in iteration order and the
ids queued for removal. -/
def scanProcs : List (String × RunningProcess) → List McpServer × List String
  | [] => ([], [])
  | e :: r =>
      let q := probeEntry e.1 e.2
      let rec' := scanProcs r
      (q.1 :: rec'.1, if q.2 then e.1 :: rec'.2 else rec'.2)

/-- Model of `McpProcessManager::get_servers`: probe every entry, then
garbage-collect the entries found dead. -/
def get_servers (reg : Registry) : List McpServer × Registry :=
  let p := scanProcs reg
  (p.1, p.2.foldl (fun r id => eraseKey id r) reg)

/-! ## Claims about the supervisor and the session contract -/

/-- Claim C4: on an uninitialized session, `call_tool` and `list_tools`
return the contract error immediately; nothing is written, the state is
unchanged and the input stream is not consumed. -/
theorem call_tool_uninitialized (st : ClientState) (name : String) (arguments : Json)
    (input : List Char) (h : st.initialized = false) :
    call_tool st name arguments input =
      { out := .error "Client not initialized. Call initialize() first.", state := st,
        written := [], remaining := input }
    ∧ list_tools st input =
      { out := .error "Client not initialized. Call initialize() first.", state := st,
        written := [], remaining := input } := by
  constructor <;> simp [call_tool, list_tools, h]

/-- Witness for C4 at a fresh client. -/
theorem call_tool_uninitialized_witness :
    freshClient.initialized = false
    ∧ (call_tool freshClient "aidd_session" Json.null [] =
        { out := .error "Client not initialized. Call initialize() first.", state := freshClient,
          written := [], remaining := [] }
      ∧ list_tools freshClient [] =
        { out := .error "Client not initialized. Call initialize() first.", state := freshClient,
          written := [], remaining := [] }) :=
  ⟨rfl, call_tool_uninitialized freshClient "aidd_session" Json.null [] rfl⟩

/-- Claim C6: after a successful `start` of `x`, an immediate second `start`
of `x` fails with the already-running error, the registry is unchanged by
the failing call, and it holds exactly one entry keyed `x`. -/
theorem start_already_running (reg : Registry) (x : String) (mode mode2 : McpServerMode)
    (sp sp2 : SpawnSpec → Except String Child) (now now2 : String)
    (s : McpServer) (reg' : Registry)
    (h : start reg x mode sp now = (.ok s, reg')) :
    start reg' x mode2 sp2 now2 = (.error ("Server '" ++ x ++ "' is already running"), reg')
    ∧ (reg'.filter (fun e => e.1 = x)).length = 1 := by
  by_cases hc : containsKey x reg
  · simp [start, hc] at h
  · rcases hres : resolve_command x with e | ⟨nm, cas⟩
    · simp [start, hc, hres] at h
    · rcases hsp : sp (buildCommand cas) with e | child
      · simp [start, hc, hres, hsp] at h
      · simp [start, hc, hres, hsp] at h
        obtain ⟨-, hreg⟩ := h
        subst hreg
        have hck : containsKey x (reg ++ [(x, { child := child, name := nm, mode := mode, started_at := now })]) = true := by
          simp [containsKey]
        have hfil : reg.filter (fun e => e.1 = x) = [] := by
          rw [List.filter_eq_nil_iff]
          intro a ha
          have : ¬ (decide (a.1 = x) = true) := by
            intro hax
            exact hc (List.any_eq_true.mpr ⟨a, ha, hax⟩)
          simpa using this
        refine ⟨by simp [start, hck], ?_⟩
        rw [List.filter_append, hfil]
        simp

/-- Witness for C6: a concrete first start followed by a second. -/
def demoSpawner : SpawnSpec → Except String Child :=
  fun _ => .ok { pid := 42, probe := .alive, killResult := none }

/-- The registry after the witness start. -/
def demoReg : Registry :=
  [("core", { child := { pid := 42, probe := .alive, killResult := none },
              name := "@aidd.md/mcp-core", mode := .hubHosted, started_at := "t0" })]

/-- The snapshot the witness start returns. -/
def demoServer : McpServer :=
  { id := "core", name := "@aidd.md/mcp-core", mode := .hubHosted, status := .running,
    pid := some 42, started_at := some "t0", error := none }

theorem start_already_running_witness :
    start [] "core" .hubHosted demoSpawner "t0" = (.ok demoServer, demoReg)
    ∧ (start demoReg "core" .hubHosted demoSpawner "t1" =
        (.error ("Server '" ++ "core" ++ "' is already running"), demoReg)
      ∧ (demoReg.filter (fun e => e.1 = "core")).length = 1) :=
  ⟨rfl, start_already_running [] "core" .hubHosted .hubHosted demoSpawner demoSpawner
    "t0" "t1" demoServer demoReg rfl⟩

/-- The teardown loop pairs every kill with an immediate reap. -/
theorem drainAll_eq_flatMap (reg : List (String × RunningProcess)) :
    drainAll reg = reg.flatMap (fun e => [.kill e.2.child.pid, .wait e.2.child.pid]) := by
  induction reg with
  | nil => rfl
  | cons e r ih => simp [drainAll, ih]

/-- A tracked entry whose kill fails on `stop`. -/
def failingEntry : RunningProcess :=
  { child := { pid := 9, probe := .alive, killResult := some "EPERM" },
    name := "@aidd.md/mcp", mode := .hubHosted, started_at := "t0" }

/-- Counterexample to C8 as stated: when the kill itself fails, `stop`
returns the error without ever waiting on the process, even though the entry
has already been removed from tracking. -/
theorem stop_kill_failure_skips_reap :
    stop [("x", failingEntry)] "x" =
      (.error ("Failed to kill " ++ "x" ++ ": " ++ "EPERM"), [], [.kill 9])
    ∧ ProcAction.wait 9 ∉ (stop [("x", failingEntry)] "x").2.2
    ∧ findEntry "x" (stop [("x", failingEntry)] "x").2.1 = none := by
  refine ⟨rfl, by decide, rfl⟩

/-- Claim C8, amended: on `stop` the reap follows the kill exactly when the
kill succeeds — the kill-failure path removes the entry and returns without
reaping — while on `stop_all` every tracked entry is killed and then
unconditionally reaped, the registry ends empty and the call succeeds. -/
theorem stop_reap_discipline (reg : Registry) (sid : String) (p : RunningProcess)
    (reg2 : Registry) (h : extractEntry sid reg = some (p, reg2)) :
    (p.child.killResult = none →
      stop reg sid = (.ok (), reg2, [.kill p.child.pid, .wait p.child.pid]))
    ∧ (∀ e, p.child.killResult = some e →
      stop reg sid = (.error ("Failed to kill " ++ sid ++ ": " ++ e), reg2, [.kill p.child.pid]))
    ∧ stop_all reg =
        (.ok (), [], reg.flatMap (fun e => [.kill e.2.child.pid, .wait e.2.child.pid])) := by
  refine ⟨fun hk => ?_, fun e hk => ?_, ?_⟩
  · simp [stop, h, hk]
  · simp [stop, h, hk]
  · simp [stop_all, drainAll_eq_flatMap]

/-- A tracked entry whose kill succeeds. -/
def cleanEntry : RunningProcess :=
  { child := { pid := 7, probe := .alive, killResult := none },
    name := "@aidd.md/mcp", mode := .toolLaunched, started_at := "t1" }

theorem stop_reap_discipline_witness :
    extractEntry "m" [("m", cleanEntry)] = some (cleanEntry, [])
    ∧ ((cleanEntry.child.killResult = none →
        stop [("m", cleanEntry)] "m" = (.ok (), [], [.kill cleanEntry.child.pid, .wait cleanEntry.child.pid]))
      ∧ (∀ e, cleanEntry.child.killResult = some e →
        stop [("m", cleanEntry)] "m" =
          (.error ("Failed to kill " ++ "m" ++ ": " ++ e), [], [.kill cleanEntry.child.pid]))
      ∧ stop_all [("m", cleanEntry)] =
          (.ok (), [], [("m", cleanEntry)].flatMap (fun e => [.kill e.2.child.pid, .wait e.2.child.pid]))) :=
  ⟨rfl, stop_reap_discipline [("m", cleanEntry)] "m" cleanEntry [] rfl⟩

/-- Counterexample to C9 as stated: the supervisor's spawn request for a
successful start configures the child's standard error as piped, not
inherited (`.stderr(Stdio::piped())` at source line 44). -/
theorem start_stderr_piped_not_inherited :
    start [] "core" .hubHosted demoSpawner "t0" = (.ok demoServer, demoReg)
    ∧ (buildCommand ["npx", "-y", "@aidd.md/mcp-core"]).stderrCfg = .piped
    ∧ PipeCfg.piped ≠ PipeCfg.inherited :=
  ⟨rfl, rfl, by decide⟩

/-- Claim C9, amended: every successful `start` spawns via a command whose
standard input, output AND error streams are piped, and returns a Running
snapshot carrying the child's pid and the captured start time; the new entry
is appended to the registry. -/
theorem start_running_snapshot (reg : Registry) (pkg : String) (mode : McpServerMode)
    (sp : SpawnSpec → Except String Child) (now : String) (s : McpServer) (reg' : Registry)
    (h : start reg pkg mode sp now = (.ok s, reg')) :
    ∃ nm cmdArgs child,
      resolve_command pkg = .ok (nm, cmdArgs)
      ∧ sp (buildCommand cmdArgs) = .ok child
      ∧ (buildCommand cmdArgs).stdinCfg = .piped
      ∧ (buildCommand cmdArgs).stdoutCfg = .piped
      ∧ (buildCommand cmdArgs).stderrCfg = .piped
      ∧ s = { id := pkg, name := nm, mode := mode, status := .running,
              pid := some child.pid, started_at := some now, error := none }
      ∧ reg' = reg ++ [(pkg, { child := child, name := nm, mode := mode, started_at := now })] := by
  by_cases hc : containsKey pkg reg
  · simp [start, hc] at h
  · rcases hres : resolve_command pkg with e | ⟨nm, cas⟩
    · simp [start, hc, hres] at h
    · rcases hsp : sp (buildCommand cas) with e | child
      · simp [start, hc, hres, hsp] at h
      · simp [start, hc, hres, hsp] at h
        exact ⟨nm, cas, child, rfl, hsp, rfl, rfl, rfl, h.1.symm, h.2.symm⟩

theorem start_running_snapshot_witness :
    start [] "core" .hubHosted demoSpawner "t0" = (.ok demoServer, demoReg)
    ∧ ∃ nm cmdArgs child,
        resolve_command "core" = .ok (nm, cmdArgs)
        ∧ demoSpawner (buildCommand cmdArgs) = .ok child
        ∧ (buildCommand cmdArgs).stdinCfg = .piped
        ∧ (buildCommand cmdArgs).stdoutCfg = .piped
        ∧ (buildCommand cmdArgs).stderrCfg = .piped
        ∧ demoServer = { id := "core", name := nm, mode := .hubHosted, status := .running,
                         pid := some child.pid, started_at := some "t0", error := none }
        ∧ demoReg = [] ++ [("core", { child := child, name := nm, mode := .hubHosted, started_at := "t0" })] :=
  ⟨rfl, start_running_snapshot [] "core" .hubHosted demoSpawner "t0" demoServer demoReg rfl⟩

/-! ## Registry lemmas for the status scan -/

theorem eraseKey_cons (k : String) (e : String × RunningProcess) (r : Registry) :
    eraseKey k (e :: r) = if e.1 = k then r else e :: eraseKey k r := by
  by_cases h : e.1 = k
  · simp [eraseKey, extractEntry, h]
  · simp only [eraseKey, extractEntry, h, if_neg, if_false]
    cases hx : extractEntry k r <;> simp [hx]

theorem findEntry_none_iff (k : String) (r : Registry) :
    findEntry k r = none ↔ k ∉ r.map Prod.fst := by
  induction r with
  | nil => simp [findEntry]
  | cons e t ih =>
      rw [List.map_cons]
      by_cases h : e.1 = k
      · rw [findEntry, if_pos h]
        constructor
        · intro hc; exact absurd hc (by simp)
        · intro hc; exact absurd (List.mem_cons.mpr (Or.inl h.symm)) hc
      · rw [findEntry, if_neg h, ih]
        constructor
        · intro hk hm
          rcases List.mem_cons.mp hm with h1 | h1
          · exact h h1.symm
          · exact hk h1
        · intro hm h1
          exact hm (List.mem_cons_of_mem _ h1)

theorem eraseKey_keys_sublist (y : String) (r : Registry) :
    ((eraseKey y r).map Prod.fst).Sublist (r.map Prod.fst) := by
  induction r with
  | nil => simp [eraseKey, extractEntry]
  | cons e t ih =>
      rw [eraseKey_cons]
      by_cases h : e.1 = y
      · simp only [h, if_pos]
        exact (List.sublist_cons_self _ _)
      · simp only [h, if_neg, if_false, List.map_cons]
        exact ih.cons₂ _

theorem findEntry_eraseKey_self (k : String) (r : Registry)
    (hnd : (r.map Prod.fst).Nodup) : findEntry k (eraseKey k r) = none := by
  induction r with
  | nil => rfl
  | cons e t ih =>
      rw [List.map_cons, List.nodup_cons] at hnd
      rw [eraseKey_cons]
      by_cases h : e.1 = k
      · rw [if_pos h, findEntry_none_iff]
        intro hk
        exact hnd.1 (h ▸ hk)
      · rw [if_neg h, findEntry, if_neg h]
        exact ih hnd.2

theorem findEntry_eraseKey_other (k y : String) (r : Registry) (hky : k ≠ y) :
    findEntry k (eraseKey y r) = findEntry k r := by
  induction r with
  | nil => rfl
  | cons e t ih =>
      rw [eraseKey_cons]
      by_cases h : e.1 = y
      · rw [if_pos h]
        have hek : ¬ e.1 = k := fun hk => hky (hk.symm.trans h)
        rw [findEntry, if_neg hek]
      · rw [if_neg h, findEntry, findEntry]
        by_cases h2 : e.1 = k
        · rw [if_pos h2, if_pos h2]
        · rw [if_neg h2, if_neg h2, ih]

theorem findEntry_none_eraseKey (k y : String) (r : Registry)
    (h : findEntry k r = none) : findEntry k (eraseKey y r) = none := by
  rw [findEntry_none_iff] at h ⊢
  exact fun hk => h ((eraseKey_keys_sublist y r).subset hk)

theorem findEntry_foldl_erase_none (ds : List String) (k : String) (r : Registry)
    (h : findEntry k r = none) :
    findEntry k (ds.foldl (fun acc id => eraseKey id acc) r) = none := by
  induction ds generalizing r with
  | nil => exact h
  | cons d t ih => exact ih _ (findEntry_none_eraseKey k d r h)

theorem foldl_erase_keys_nodup (ds : List String) (r : Registry)
    (hnd : (r.map Prod.fst).Nodup) :
    ((ds.foldl (fun acc id => eraseKey id acc) r).map Prod.fst).Nodup := by
  induction ds generalizing r with
  | nil => exact hnd
  | cons d t ih => exact ih _ ((eraseKey_keys_sublist d r).nodup hnd)

theorem findEntry_foldl_erase_mem (ds : List String) (k : String) (r : Registry)
    (hin : k ∈ ds) (hnd : (r.map Prod.fst).Nodup) :
    findEntry k (ds.foldl (fun acc id => eraseKey id acc) r) = none := by
  induction ds generalizing r with
  | nil => cases hin
  | cons d t ih =>
      rcases List.mem_cons.mp hin with h | h
      · subst h
        exact findEntry_foldl_erase_none t k _ (findEntry_eraseKey_self k r hnd)
      · exact ih _ h ((eraseKey_keys_sublist d r).nodup hnd)

theorem findEntry_foldl_erase_other (ds : List String) (k : String) (r : Registry)
    (h : ∀ y ∈ ds, y ≠ k) :
    findEntry k (ds.foldl (fun acc id => eraseKey id acc) r) = findEntry k r := by
  induction ds generalizing r with
  | nil => rfl
  | cons d t ih =>
      rw [List.foldl_cons, ih _ (fun y hy => h y (List.mem_cons_of_mem d hy)),
          findEntry_eraseKey_other _ _ _ (fun hk => h d (List.mem_cons_self d t) hk.symm)]

theorem findEntry_of_mem_nodup (r : Registry) (x : String) (p : RunningProcess)
    (hnd : (r.map Prod.fst).Nodup) (h : (x, p) ∈ r) : findEntry x r = some p := by
  induction r with
  | nil => cases h
  | cons e t ih =>
      rcases List.mem_cons.mp h with h1 | h1
      · subst h1; simp [findEntry]
      · have hx : x ∈ t.map Prod.fst := List.mem_map.mpr ⟨(x, p), h1, rfl⟩
        have he : ¬ e.1 = x := by
          intro hek
          exact (List.nodup_cons.mp (by simpa using hnd)).1 (hek ▸ hx)
        simp only [findEntry, he, if_neg, if_false]
        exact ih (List.nodup_cons.mp (by simpa using hnd)).2 h1

theorem probeEntry_id (i : String) (p : RunningProcess) : (probeEntry i p).1.id = i := by
  cases hp : p.child.probe <;> simp [probeEntry, hp]

theorem probeEntry_dead_iff (i : String) (p : RunningProcess) :
    (probeEntry i p).2 = true ↔ p.child.probe = .exited := by
  cases hp : p.child.probe <;> simp [probeEntry, hp]

theorem scanProcs_result_ids (reg : Registry) :
    ∀ s ∈ (scanProcs reg).1, s.id ∈ reg.map Prod.fst := by
  induction reg with
  | nil => simp [scanProcs]
  | cons e t ih =>
      intro s hs
      rcases List.mem_cons.mp (by simpa [scanProcs] using hs) with h | h
      · subst h
        simp [probeEntry_id]
      · simp only [List.map_cons, List.mem_cons]
        exact Or.inr (ih s h)

theorem scanProcs_mem_result (reg : Registry) (x : String) (p : RunningProcess)
    (h : (x, p) ∈ reg) : (probeEntry x p).1 ∈ (scanProcs reg).1 := by
  induction reg with
  | nil => cases h
  | cons e t ih =>
      rcases List.mem_cons.mp h with h1 | h1
      · subst h1; simp [scanProcs]
      · simp only [scanProcs, List.mem_cons]
        exact Or.inr (ih h1)

theorem mem_scanProcs_dead (reg : Registry) (y : String) (h : y ∈ (scanProcs reg).2) :
    ∃ q, (y, q) ∈ reg ∧ q.child.probe = .exited := by
  induction reg with
  | nil => cases h
  | cons e t ih =>
      simp only [scanProcs] at h
      by_cases hd : (probeEntry e.1 e.2).2 = true
      · rw [if_pos hd] at h
        rcases List.mem_cons.mp h with h1 | h1
        · subst h1
          exact ⟨e.2, List.mem_cons_self _ _, (probeEntry_dead_iff _ _).mp hd⟩
        · obtain ⟨q, hq, hqp⟩ := ih h1
          exact ⟨q, List.mem_cons_of_mem _ hq, hqp⟩
      · rw [if_neg hd] at h
        obtain ⟨q, hq, hqp⟩ := ih h
        exact ⟨q, List.mem_cons_of_mem _ hq, hqp⟩

theorem scanProcs_dead_of_mem (reg : Registry) (x : String) (p : RunningProcess)
    (h : (x, p) ∈ reg) (hp : p.child.probe = .exited) : x ∈ (scanProcs reg).2 := by
  induction reg with
  | nil => cases h
  | cons e t ih =>
      simp only [scanProcs]
      rcases List.mem_cons.mp h with h1 | h1
      · subst h1
        rw [if_pos ((probeEntry_dead_iff _ _).mpr hp)]
        exact List.mem_cons_self _ _
      · by_cases hd : (probeEntry e.1 e.2).2 = true
        · rw [if_pos hd]; exact List.mem_cons_of_mem _ (ih h1)
        · rw [if_neg hd]; exact ih h1

theorem entry_unique_of_nodup (r : Registry) (x : String) (a b : RunningProcess)
    (hnd : (r.map Prod.fst).Nodup) (ha : (x, a) ∈ r) (hb : (x, b) ∈ r) : a = b := by
  have h1 := findEntry_of_mem_nodup r x a hnd ha
  have h2 := findEntry_of_mem_nodup r x b hnd hb
  rw [h1] at h2
  exact Option.some_injective _ h2

/-- Claim C7: a tracked entry whose process has exited is reported by
`get_servers` as Stopped with no pid and a non-empty error message, and is
garbage-collected after the scan, so a second `get_servers` no longer lists
it; an entry whose liveness probe errors is reported as Error and kept. -/
theorem get_servers_garbage_collects (reg : Registry) (x : String) (p : RunningProcess)
    (hnd : (reg.map Prod.fst).Nodup) (hmem : (x, p) ∈ reg) :
    (p.child.probe = .exited →
      ({ id := x, name := p.name, mode := p.mode, status := .stopped, pid := none,
         started_at := some p.started_at,
         error := some "Process exited unexpectedly" } : McpServer) ∈ (get_servers reg).1
      ∧ "Process exited unexpectedly" ≠ ""
      ∧ findEntry x (get_servers reg).2 = none
      ∧ ∀ s ∈ (get_servers (get_servers reg).2).1, s.id ≠ x)
    ∧ (∀ e, p.child.probe = .probeError e →
      ({ id := x, name := p.name, mode := p.mode, status := .error, pid := none,
         started_at := some p.started_at,
         error := some ("Status check failed: " ++ e) } : McpServer) ∈ (get_servers reg).1
      ∧ findEntry x (get_servers reg).2 = some p) := by
  constructor
  · intro hp
    have hmem1 : (probeEntry x p).1 ∈ (scanProcs reg).1 := scanProcs_mem_result reg x p hmem
    have hdead : x ∈ (scanProcs reg).2 := scanProcs_dead_of_mem reg x p hmem hp
    have hrm : findEntry x (get_servers reg).2 = none := by
      simp only [get_servers]
      exact findEntry_foldl_erase_mem _ x reg hdead hnd
    refine ⟨by simpa [get_servers, probeEntry, hp] using hmem1, by decide, hrm, ?_⟩
    intro s hs hsx
    have hid : s.id ∈ ((get_servers reg).2).map Prod.fst :=
      scanProcs_result_ids _ s (by simpa [get_servers] using hs)
    rw [hsx] at hid
    exact (findEntry_none_iff x _).mp hrm hid
  · intro e hp
    have hmem1 : (probeEntry x p).1 ∈ (scanProcs reg).1 := scanProcs_mem_result reg x p hmem
    have hke : ∀ y ∈ (scanProcs reg).2, y ≠ x := by
      intro y hy hyx
      subst hyx
      obtain ⟨q, hq, hqe⟩ := mem_scanProcs_dead reg y hy
      have hqp : q = p := entry_unique_of_nodup reg y q p hnd hq hmem
      rw [hqp, hp] at hqe
      exact ProbeResult.noConfusion hqe
    refine ⟨by simpa [get_servers, probeEntry, hp] using hmem1, ?_⟩
    simp only [get_servers]
    rw [findEntry_foldl_erase_other _ x reg hke]
    exact findEntry_of_mem_nodup reg x p hnd hmem

/-- A tracked entry whose process has already exited. -/
def deadEntry : RunningProcess :=
  { child := { pid := 5, probe := .exited, killResult := none },
    name := "@aidd.md/mcp", mode := .hubHosted, started_at := "t2" }

/-- A tracked entry whose liveness probe fails. -/
def unprobeableEntry : RunningProcess :=
  { child := { pid := 6, probe := .probeError "os error", killResult := none },
    name := "@aidd.md/mcp-core", mode := .hubHosted, started_at := "t3" }

/-- The witness registry: one dead entry, one unprobeable entry. -/
def scanReg : Registry := [("m", deadEntry), ("e", unprobeableEntry)]

theorem get_servers_garbage_collects_witness :
    ((scanReg.map Prod.fst).Nodup ∧ ("m", deadEntry) ∈ scanReg)
    ∧ ((deadEntry.child.probe = .exited →
        ({ id := "m", name := deadEntry.name, mode := deadEntry.mode, status := .stopped,
           pid := none, started_at := some deadEntry.started_at,
           error := some "Process exited unexpectedly" } : McpServer) ∈ (get_servers scanReg).1
        ∧ "Process exited unexpectedly" ≠ ""
        ∧ findEntry "m" (get_servers scanReg).2 = none
        ∧ ∀ s ∈ (get_servers (get_servers scanReg).2).1, s.id ≠ "m")
      ∧ (∀ e, deadEntry.child.probe = .probeError e →
        ({ id := "m", name := deadEntry.name, mode := deadEntry.mode, status := .error,
           pid := none, started_at := some deadEntry.started_at,
           error := some ("Status check failed: " ++ e) } : McpServer) ∈ (get_servers scanReg).1
        ∧ findEntry "m" (get_servers scanReg).2 = some deadEntry)) :=
  ⟨⟨by decide, by decide⟩,
   get_servers_garbage_collects scanReg "m" deadEntry (by decide) (by decide)⟩

/-! ## Claims about the session's request ids -/

/-- Every `send_request` advances the id counter by one (mod `2^64`),
regardless of its arguments, its input stream or its outcome, and leaves the
initialization flag alone. -/
theorem send_request_state (st : ClientState) (method : String) (params : Json)
    (input : List Char) :
    (send_request st method params input).state =
      { st with nextId := (st.nextId + 1) % u64Mod } := rfl

theorem clientAfter_nextId (k : Nat) : (clientAfter k).nextId = (k + 1) % u64Mod := by
  induction k with
  | zero =>
      show (1 : Nat) = 1 % u64Mod
      decide
  | succ k ih =>
      show ((clientAfter k).nextId + 1) % u64Mod = (k + 1 + 1) % u64Mod
      rw [ih, Nat.mod_add_mod]

/-- The id allocated by the `k`-th call, in closed form: the call counter
modulo `2^64`. -/
theorem nthRequestId_eq (k : Nat) (hk : 1 ≤ k) : nthRequestId k = k % u64Mod := by
  unfold nthRequestId
  rw [clientAfter_nextId, Nat.sub_add_cancel hk]

/-- Counterexample to C3 as stated: the `AtomicU64` allocation in
`send_request` wraps at `2^64`, so the call numbered `2^64 + 1` on one
session is allocated the same RequestId as the first call — a value IS
reused (after an astronomically long run). -/
theorem nthRequestId_reuse :
    nthRequestId (u64Mod + 1) = nthRequestId 1 ∧ u64Mod + 1 ≠ 1 := by
  constructor
  · rw [nthRequestId_eq (u64Mod + 1) (by omega), nthRequestId_eq 1 (by omega),
        Nat.add_comm u64Mod 1, Nat.add_mod_right]
  · norm_num [u64Mod]

/-- Claim C3, amended: as long as fewer than `2^64` ids have been allocated
(every physically realizable run), the RequestIds allocated by successive
request-issuing calls on one session form a strictly increasing sequence of
unsigned integers starting at 1, so no value is reused before the counter
wraps. -/
theorem nthRequestId_increasing (j k : Nat) (h1 : 1 ≤ j) (h2 : j < k) (h3 : k < u64Mod) :
    nthRequestId 1 = 1 ∧ nthRequestId j < nthRequestId k := by
  have hval : ∀ m, 1 ≤ m → m < u64Mod → nthRequestId m = m := by
    intro m hm1 hmu
    show (clientAfter (m - 1)).nextId = m
    rw [clientAfter_nextId, Nat.sub_add_cancel hm1, Nat.mod_eq_of_lt hmu]
  refine ⟨hval 1 le_rfl (by decide), ?_⟩
  rw [hval j h1 (lt_trans h2 h3), hval k (le_trans h1 (le_of_lt h2)) h3]
  exact h2

theorem nthRequestId_increasing_witness :
    (1 ≤ 1 ∧ 1 < 3 ∧ 3 < u64Mod)
    ∧ (nthRequestId 1 = 1 ∧ nthRequestId 1 < nthRequestId 3) :=
  ⟨⟨le_rfl, by decide, by decide⟩, nthRequestId_increasing 1 3 le_rfl (by decide) (by decide)⟩

/-! ## Claims about the correlation loop and the handshake -/

theorem read_message_nil : read_message [] = .error "Server closed connection (EOF)" := rfl

/-- Claim C5: with the session uninitialized and the stream yielding a
successful matching response, `initialize` performs exactly one handshake
pair — the framed `initialize` request followed by the framed
`notifications/initialized` notification — and flips the state; the second
`initialize` call returns the success sentinel without writing a byte,
consuming input, or changing state. -/
theorem init_session_twice (st : ClientState) (input post : List Char) (resp v : Json)
    (h0 : st.initialized = false)
    (hread : read_message input = .ok (resp, post))
    (hid : resp.get? "id" = some v)
    (hv : v.asU64? = some st.nextId)
    (herr : resp.get? "error" = none) :
    init_session st input =
      { out := .ok ((resp.get? "result").getD Json.null),
        state := { nextId := (st.nextId + 1) % u64Mod, initialized := true },
        written := write_message (rpcRequest st.nextId "initialize" initParams) ++
                   write_message (rpcNotification "notifications/initialized" (.obj [])),
        remaining := post }
    ∧ init_session { nextId := (st.nextId + 1) % u64Mod, initialized := true } post =
      { out := .ok (.obj [("already_initialized", .bool true)]),
        state := { nextId := (st.nextId + 1) % u64Mod, initialized := true },
        written := [], remaining := post } := by
  constructor
  · simp only [init_session, h0, Bool.false_eq_true, if_false, send_request, respLoopF,
               hread, hid, hv, if_pos, decodeResponse, herr, send_notification]
  · simp [init_session]

/-- The response the witness handshake receives. -/
def initResp : Json :=
  .obj [("id", .num 1), ("jsonrpc", .str "2.0"), ("result", .obj [("capabilities", .obj [])])]

set_option maxRecDepth 40000 in
theorem init_session_twice_witness :
    (freshClient.initialized = false
      ∧ read_message (write_message initResp) = .ok (initResp, [])
      ∧ initResp.get? "id" = some (.num 1)
      ∧ (Json.num 1).asU64? = some freshClient.nextId
      ∧ initResp.get? "error" = none)
    ∧ (init_session freshClient (write_message initResp) =
        { out := .ok ((initResp.get? "result").getD Json.null),
          state := { nextId := (freshClient.nextId + 1) % u64Mod, initialized := true },
          written := write_message (rpcRequest freshClient.nextId "initialize" initParams) ++
                     write_message (rpcNotification "notifications/initialized" (.obj [])),
          remaining := [] }
      ∧ init_session { nextId := (freshClient.nextId + 1) % u64Mod, initialized := true } [] =
        { out := .ok (.obj [("already_initialized", .bool true)]),
          state := { nextId := (freshClient.nextId + 1) % u64Mod, initialized := true },
          written := [], remaining := [] }) :=
  ⟨⟨rfl, rfl, rfl, rfl, rfl⟩,
   init_session_twice freshClient (write_message initResp) [] initResp (.num 1)
     rfl rfl rfl rfl rfl⟩

/-- Claim C10: a matched response with neither `error` nor `result` members
yields success with JSON null; a matched error response with neither `code`
nor `message` members fails with the defaults `-1` and `Unknown error`. -/
theorem send_request_defaults (st : ClientState) (method : String) (params : Json)
    (input1 post1 : List Char) (resp1 v1 : Json)
    (input2 post2 : List Char) (resp2 v2 err2 : Json)
    (hr1 : read_message input1 = .ok (resp1, post1))
    (hid1 : resp1.get? "id" = some v1) (hv1 : v1.asU64? = some st.nextId)
    (herr1 : resp1.get? "error" = none) (hres1 : resp1.get? "result" = none)
    (hr2 : read_message input2 = .ok (resp2, post2))
    (hid2 : resp2.get? "id" = some v2) (hv2 : v2.asU64? = some st.nextId)
    (herr2 : resp2.get? "error" = some err2)
    (hcode : err2.get? "code" = none)
    (hmsg : err2.get? "message" = none) :
    (send_request st method params input1).out = .ok Json.null
    ∧ (send_request st method params input2).out = .error "JSON-RPC error -1: Unknown error" := by
  constructor
  · simp only [send_request, respLoopF, hr1, hid1, hv1, if_pos, decodeResponse, herr1, hres1,
               Option.getD_none]
  · simp only [send_request, respLoopF, hr2, hid2, hv2, if_pos, decodeResponse, herr2,
               hcode, hmsg, Option.bind_none, Option.getD_none]
    rfl

/-- The matched response of the first C10 scenario: no error, no result. -/
def bareResp : Json := .obj [("id", .num 1), ("jsonrpc", .str "2.0")]

/-- The matched response of the second C10 scenario: an empty error object. -/
def bareErrResp : Json := .obj [("error", .obj []), ("id", .num 1), ("jsonrpc", .str "2.0")]

set_option maxRecDepth 40000 in
theorem send_request_defaults_witness :
    (read_message (write_message bareResp) = .ok (bareResp, [])
      ∧ bareResp.get? "id" = some (.num 1)
      ∧ (Json.num 1).asU64? = some freshClient.nextId
      ∧ bareResp.get? "error" = none
      ∧ bareResp.get? "result" = none
      ∧ read_message (write_message bareErrResp) = .ok (bareErrResp, [])
      ∧ bareErrResp.get? "id" = some (.num 1)
      ∧ bareErrResp.get? "error" = some (.obj [])
      ∧ (Json.obj []).get? "code" = none
      ∧ (Json.obj []).get? "message" = none)
    ∧ ((send_request freshClient "tools/call" Json.null (write_message bareResp)).out = .ok Json.null
      ∧ (send_request freshClient "tools/call" Json.null (write_message bareErrResp)).out =
          .error "JSON-RPC error -1: Unknown error") :=
  ⟨⟨rfl, rfl, rfl, rfl, rfl, rfl, rfl, rfl, rfl, rfl⟩,
   send_request_defaults freshClient "tools/call" Json.null
     (write_message bareResp) [] bareResp (.num 1)
     (write_message bareErrResp) [] bareErrResp (.num 1) (.obj [])
     rfl rfl rfl rfl rfl rfl rfl rfl rfl rfl rfl⟩

/-- Claim C1: when the framed stream yields one notification (no `id`
member) and then one response whose `id` matches the outstanding request,
`send_request` writes the framed request, silently discards the
notification, and returns the matching response's `result` payload with the
stream consumed past both messages. -/
theorem send_request_skips_notification (st : ClientState) (method : String) (params : Json)
    (input mid post : List Char) (note resp v payload : Json)
    (hread1 : read_message input = .ok (note, mid))
    (hnote : note.get? "id" = none)
    (hread2 : read_message mid = .ok (resp, post))
    (hid : resp.get? "id" = some v) (hv : v.asU64? = some st.nextId)
    (herr : resp.get? "error" = none)
    (hres : resp.get? "result" = some payload) :
    send_request st method params input =
      { out := .ok payload,
        state := { st with nextId := (st.nextId + 1) % u64Mod },
        written := write_message (rpcRequest st.nextId method params),
        remaining := post } := by
  cases input with
  | nil =>
      rw [read_message_nil] at hread1
      exact Except.noConfusion hread1
  | cons a l =>
      simp only [send_request, List.length_cons, respLoopF, hread1, hnote, hread2, hid, hv,
                 if_pos, decodeResponse, herr, hres, Option.getD_some]

/-- The notification the C1 witness stream carries before the response. -/
def pingNote : Json := .obj [("jsonrpc", .str "2.0"), ("method", .str "ping"), ("params", .obj [])]

/-- The matching response of the C1 witness stream. -/
def resultResp : Json := .obj [("id", .num 1), ("jsonrpc", .str "2.0"), ("result", .str "payload")]

set_option maxRecDepth 80000 in
theorem send_request_skips_notification_witness :
    (read_message (write_message pingNote ++ write_message resultResp) =
        .ok (pingNote, write_message resultResp)
      ∧ pingNote.get? "id" = none
      ∧ read_message (write_message resultResp) = .ok (resultResp, [])
      ∧ resultResp.get? "id" = some (.num 1)
      ∧ (Json.num 1).asU64? = some freshClient.nextId
      ∧ resultResp.get? "error" = none
      ∧ resultResp.get? "result" = some (.str "payload"))
    ∧ send_request freshClient "tools/list" (.obj [])
        (write_message pingNote ++ write_message resultResp) =
      { out := .ok (.str "payload"),
        state := { freshClient with nextId := (freshClient.nextId + 1) % u64Mod },
        written := write_message (rpcRequest freshClient.nextId "tools/list" (.obj [])),
        remaining := [] } :=
  ⟨⟨rfl, rfl, rfl, rfl, rfl, rfl, rfl⟩,
   send_request_skips_notification freshClient "tools/list" (.obj [])
     (write_message pingNote ++ write_message resultResp) (write_message resultResp) []
     pingNote resultResp (.num 1) (.str "payload")
     rfl rfl rfl rfl rfl rfl rfl⟩

/-! ## Round-trip of the JSON codec: digits and numbers -/

theorem digitChar_val (k : Nat) (h : k < 10) :
    (Char.ofNat (48 + k)).toNat = 48 + k ∧ isDigitC (Char.ofNat (48 + k)) = true := by
  interval_cases k <;> decide

theorem digitChar10_toNat (n : Nat) : (digitChar10 n).toNat = 48 + n % 10 :=
  (digitChar_val (n % 10) (Nat.mod_lt _ (by omega))).1

theorem digitChar10_digit (n : Nat) : isDigitC (digitChar10 n) = true :=
  (digitChar_val (n % 10) (Nat.mod_lt _ (by omega))).2

theorem natDigitsGo_spec (n : Nat) : ∀ fuel acc, n < fuel →
    natDigitsGo fuel n acc = natChars n ++ acc := by
  induction n using Nat.strongRecOn with
  | _ n ih =>
      intro fuel acc hf
      match fuel, hf with
      | f + 1, _ =>
          rw [natDigitsGo, natChars, natDigitsGo]
          by_cases h10 : n < 10
          · simp [h10]
          · rw [if_neg h10, if_neg h10]
            have hdiv : n / 10 < n := Nat.div_lt_self (by omega) (by omega)
            rw [ih (n / 10) hdiv f _ (by omega), ih (n / 10) hdiv n _ (by omega)]
            simp

theorem natChars_unfold (n : Nat) :
    natChars n = (if n < 10 then [] else natChars (n / 10)) ++ [digitChar10 n] := by
  rw [natChars, natDigitsGo]
  by_cases h10 : n < 10
  · simp [h10]
  · rw [if_neg h10, if_neg h10]
    have hdiv : n / 10 < n := Nat.div_lt_self (by omega) (by omega)
    exact natDigitsGo_spec (n / 10) n _ (by omega)

theorem natChars_ne_nil (n : Nat) : natChars n ≠ [] := by
  rw [natChars_unfold]
  simp

theorem natChars_digits (n : Nat) : ∀ c ∈ natChars n, isDigitC c = true := by
  induction n using Nat.strongRecOn with
  | _ n ih =>
      rw [natChars_unfold]
      intro c hc
      rcases List.mem_append.mp hc with h | h
      · by_cases h10 : n < 10
        · simp [h10] at h
        · rw [if_neg h10] at h
          exact ih (n / 10) (Nat.div_lt_self (by omega) (by omega)) c h
      · rw [List.mem_singleton] at h
        subst h
        exact digitChar10_digit n

theorem digitsToNat_natChars (n : Nat) : digitsToNat (natChars n) = n := by
  induction n using Nat.strongRecOn with
  | _ n ih =>
      rw [natChars_unfold, digitsToNat, List.foldl_append]
      by_cases h10 : n < 10
      · simp only [h10, if_pos, List.foldl_nil, List.foldl_cons, digitChar10_toNat]
        omega
      · rw [if_neg h10]
        have : (natChars (n / 10)).foldl (fun a c => a * 10 + (c.toNat - 48)) 0 = n / 10 :=
          ih (n / 10) (Nat.div_lt_self (by omega) (by omega))
        rw [this]
        simp [digitChar10_toNat]
        omega

theorem isDigitC_toNat {c : Char} (h : isDigitC c = true) : 48 ≤ c.toNat ∧ c.toNat ≤ 57 := by
  simpa [isDigitC] using h

theorem digit_ne_char {c : Char} (h : isDigitC c = true) (d : Char)
    (hd : d.toNat < 48 ∨ 57 < d.toNat) : c ≠ d := by
  intro he
  subst he
  have := isDigitC_toNat h
  omega

theorem digit_not_wsChar {c : Char} (h : isDigitC c = true) : wsChar c = false := by
  have := isDigitC_toNat h
  simp only [wsChar]
  simp only [Bool.or_eq_false_iff, decide_eq_false_iff_not]
  omega

theorem digit_not_rustWs {c : Char} (h : isDigitC c = true) : isRustWs c = false := by
  have := isDigitC_toNat h
  simp only [isRustWs]
  simp only [Bool.or_eq_false_iff, decide_eq_false_iff_not, Bool.and_eq_false_iff]
  omega

/-- A remainder the numeric token parser must not absorb: empty, or headed
by a non-digit other than `.`, `e`, `E`. Every JSON delimiter qualifies. -/
def numDelim : List Char → Bool
  | [] => true
  | c :: _ => !(isDigitC c || c == '.' || c == 'e' || c == 'E')

theorem grabDigits_stop {rest : List Char} (h : numDelim rest = true) :
    grabDigits rest = ([], rest) := by
  match rest with
  | [] => rfl
  | c :: t =>
      simp only [numDelim, Bool.not_eq_true', Bool.or_eq_false_iff] at h
      simp [grabDigits, h.1.1.1]

theorem grabDigits_run (ds : List Char) (hds : ∀ c ∈ ds, isDigitC c = true)
    (rest : List Char) (hrest : grabDigits rest = ([], rest)) :
    grabDigits (ds ++ rest) = (ds, rest) := by
  induction ds with
  | nil => simpa using hrest
  | cons c t ih =>
      have hc : isDigitC c = true := hds c (List.mem_cons_self _ _)
      have ht := ih (fun x hx => hds x (List.mem_cons_of_mem _ hx))
      simp [grabDigits, hc, ht]

theorem numDelim_head {c : Char} {t : List Char} (hdel : numDelim (c :: t) = true) :
    isDigitC c = false ∧ c ≠ '.' ∧ c ≠ 'e' ∧ c ≠ 'E' := by
  have hflat : (isDigitC c || c == '.' || c == 'e' || c == 'E') = false := by
    simpa [numDelim] using hdel
  simp only [Bool.or_eq_false_iff, beq_eq_false_iff_ne] at hflat
  tauto

/-- The numeric token round-trip: parsing a serialized integer recovers it
when the remainder cannot extend the token. -/
theorem parseNumTok_intChars (i : Int) (rest : List Char) (hr : numDelim rest = true) :
    parseNumTok (intChars i ++ rest) = .ok (i, rest) := by
  have hgrab : grabDigits (natChars i.natAbs ++ rest) = (natChars i.natAbs, rest) :=
    grabDigits_run _ (natChars_digits _) rest (grabDigits_stop hr)
  have hne : (natChars i.natAbs).isEmpty = false := by
    cases hnc : natChars i.natAbs with
    | nil => exact absurd hnc (natChars_ne_nil _)
    | cons d ds => rfl
  by_cases hneg : i < 0
  · have harg : intChars i ++ rest = '-' :: (natChars i.natAbs ++ rest) := by
      simp [intChars, hneg]
    rw [harg]
    have hval : -(digitsToNat (natChars i.natAbs) : Int) = i := by
      rw [digitsToNat_natChars]
      omega
    cases hrest : rest with
    | nil =>
        subst hrest
        rw [List.append_nil] at hgrab ⊢
        simp [parseNumTok, hgrab, hne, hval]
    | cons c t =>
        subst hrest
        obtain ⟨-, hdot, he, hE⟩ := numDelim_head hr
        simp [parseNumTok, hgrab, hne, hval, hdot, he, hE]
  · obtain ⟨d, ds, hnd, hd⟩ :
        ∃ d ds, natChars i.natAbs = d :: ds ∧ isDigitC d = true := by
      cases hnc : natChars i.natAbs with
      | nil => exact absurd hnc (natChars_ne_nil _)
      | cons d ds =>
          exact ⟨d, ds, rfl, natChars_digits _ d (hnc ▸ List.mem_cons_self _ _)⟩
    have hdm : d ≠ '-' := digit_ne_char hd '-' (by decide)
    have harg : intChars i ++ rest = d :: (ds ++ rest) := by
      simp [intChars, hneg, hnd]
    rw [harg]
    have hgrab2 : grabDigits (d :: (ds ++ rest)) = (d :: ds, rest) := by
      have h0 := hgrab
      rw [hnd] at h0
      simpa using h0
    have hval : (digitsToNat (d :: ds) : Int) = i := by
      rw [← hnd, digitsToNat_natChars]
      omega
    cases hrest : rest with
    | nil =>
        subst hrest
        rw [List.append_nil] at hgrab2 ⊢
        simp [parseNumTok, hgrab2, hdm, hval]
    | cons c t =>
        subst hrest
        obtain ⟨-, hdot, he, hE⟩ := numDelim_head hr
        simp [parseNumTok, hgrab2, hdm, hval, hdot, he, hE]

/-! ## Round-trip of the JSON codec: strings -/

theorem hexVal_hexDig (k : Nat) (h : k < 16) : hexVal? (hexDig k) = some k := by
  interval_cases k <;> decide

theorem char_eq_ofNat {c : Char} {n : Nat} (h : c.toNat = n) : c = Char.ofNat n := by
  rw [← h, Char.ofNat_toNat]

theorem stringMk_data (s : String) : String.mk s.data = s := rfl

/-- Parsing one escaped character undoes the escape. -/
theorem parseStrBody_escChar (c : Char) (acc rest : List Char) :
    parseStrBody acc (escChar c ++ rest) = parseStrBody (c :: acc) rest := by
  by_cases h1 : c = '"'
  · subst h1
    cases rest <;> rfl
  by_cases h2 : c = '\\'
  · subst h2
    cases rest <;> rfl
  by_cases h3 : c.toNat = 8
  · rw [char_eq_ofNat h3]
    cases rest <;> rfl
  by_cases h4 : c.toNat = 9
  · rw [char_eq_ofNat h4]
    cases rest <;> rfl
  by_cases h5 : c.toNat = 10
  · rw [char_eq_ofNat h5]
    cases rest <;> rfl
  by_cases h6 : c.toNat = 12
  · rw [char_eq_ofNat h6]
    cases rest <;> rfl
  by_cases h7 : c.toNat = 13
  · rw [char_eq_ofNat h7]
    cases rest <;> rfl
  by_cases h8 : c.toNat < 32
  · have harg : escChar c ++ rest =
        '\\' :: 'u' :: '0' :: '0' :: hexDig (c.toNat / 16) :: hexDig (c.toNat % 16) :: rest := by
      simp [escChar, h1, h2, h3, h4, h5, h6, h7, h8]
    rw [harg, parseStrBody]
    have hhex : hex4? '0' '0' (hexDig (c.toNat / 16)) (hexDig (c.toNat % 16)) = some c.toNat := by
      have hh : c.toNat / 16 < 16 := by omega
      have hl : c.toNat % 16 < 16 := Nat.mod_lt _ (by omega)
      simp [hex4?, hexVal_hexDig _ hh, hexVal_hexDig _ hl,
            show hexVal? '0' = some 0 from rfl]
      omega
    rw [hhex]
    simp only [Char.ofNat_toNat]
  · have harg : escChar c ++ rest = c :: rest := by
      simp [escChar, h1, h2, h3, h4, h5, h6, h7, h8]
    rw [harg]
    cases rest with
    | nil =>
        conv_lhs => rw [parseStrBody.eq_def]
        simp [h1, h2]
    | cons x xs =>
        conv_lhs => rw [parseStrBody.eq_def]
        simp [h1, h2]

/-- Parsing an escaped character run stops exactly at the closing quote. -/
theorem parseStrBody_flatMap (l : List Char) : ∀ (acc rest : List Char),
    parseStrBody acc (l.flatMap escChar ++ '"' :: rest) =
      .ok (String.mk (acc.reverse ++ l), rest) := by
  induction l with
  | nil => intro acc rest; simp [parseStrBody]
  | cons c t ih =>
      intro acc rest
      rw [List.flatMap_cons, List.append_assoc, parseStrBody_escChar, ih]
      simp

/-- The string codec round-trip. -/
theorem parseStrBody_serStr (s : String) (rest : List Char) :
    parseStrBody [] (s.data.flatMap escChar ++ '"' :: rest) = .ok (s, rest) := by
  rw [parseStrBody_flatMap]
  simp [stringMk_data]

/-! ## Round-trip of the JSON codec: values -/

/-- Every serialized value opens with a character that is neither
whitespace nor a closing delimiter. -/
theorem serJson_head (j : Json) :
    ∃ c t, serJson j = c :: t ∧ wsChar c = false ∧ c ≠ ']' ∧ c ≠ '\x7d' := by
  match j with
  | .null => exact ⟨'n', _, rfl, by decide⟩
  | .bool true => exact ⟨'t', _, rfl, by decide⟩
  | .bool false => exact ⟨'f', _, rfl, by decide⟩
  | .str s => exact ⟨'"', _, rfl, by decide⟩
  | .arr xs => exact ⟨'[', _, rfl, by decide⟩
  | .obj es => exact ⟨'\x7b', _, rfl, by decide⟩
  | .num i =>
      by_cases hneg : i < 0
      · refine ⟨'-', natChars i.natAbs, ?_, by decide⟩
        simp [serJson, intChars, hneg]
      · obtain ⟨d, ds, hnd, hd⟩ :
            ∃ d ds, natChars i.natAbs = d :: ds ∧ isDigitC d = true := by
          cases hnc : natChars i.natAbs with
          | nil => exact absurd hnc (natChars_ne_nil _)
          | cons d ds =>
              exact ⟨d, ds, rfl, natChars_digits _ d (hnc ▸ List.mem_cons_self _ _)⟩
        refine ⟨d, ds, ?_, digit_not_wsChar hd, digit_ne_char hd ']' (by decide),
                digit_ne_char hd '\x7d' (by decide)⟩
        simp [serJson, intChars, hneg, hnd]

theorem skipWsP_cons_of_not_ws {c : Char} (h : wsChar c = false) (t : List Char) :
    skipWsP (c :: t) = c :: t := by
  simp [skipWsP, h]

/-- The whitespace skip is the identity on serialized output. -/
theorem skipWsP_serJson (j : Json) (x : List Char) :
    skipWsP (serJson j ++ x) = serJson j ++ x := by
  obtain ⟨c, t, hcons, hws, -, -⟩ := serJson_head j
  rw [hcons, List.cons_append, skipWsP_cons_of_not_ws hws]

theorem serJson_length_pos (j : Json) : 0 < (serJson j).length := by
  obtain ⟨c, t, hcons, -, -, -⟩ := serJson_head j
  simp [hcons]

/-- An input opening like a number routes `parseValue` to the numeric token
parser. -/
theorem parseValue_to_num (f : Nat) (d : Char) (t : List Char)
    (hws : wsChar d = false)
    (hlits : d ≠ 'n' ∧ d ≠ 't' ∧ d ≠ 'f' ∧ d ≠ '"' ∧ d ≠ '[' ∧ d ≠ '\x7b')
    (hg : (d = '-' || isDigitC d) = true) :
    parseValue (f + 1) (d :: t) =
      (parseNumTok (d :: t)).map (fun p => (.num p.1, p.2)) := by
  obtain ⟨hn, ht, hf, hq, hbk, hbc⟩ := hlits
  rw [parseValue, skipWsP_cons_of_not_ws hws]
  simp [hn, ht, hf, hq, hbk, hbc, hg]

theorem serItems_cons_shape (x : Json) (xs : List Json) :
    ∃ R, serItems (x :: xs) = serJson x ++ R := by
  cases xs with
  | nil => exact ⟨[], by simp [serItems]⟩
  | cons y t => exact ⟨',' :: serItems (y :: t), rfl⟩

/-- The array branch of `parseValue` on a non-empty serialized element list
reduces to `parseItems`. -/
theorem parseValue_arr_cons (x : Json) (xs : List Json) (f : Nat) (rest : List Char) :
    parseValue (f + 1) ('[' :: (serItems (x :: xs) ++ ']' :: rest)) =
      (parseItems f (serItems (x :: xs) ++ ']' :: rest)).map (fun p => (.arr p.1, p.2)) := by
  obtain ⟨c, t, hcons, hws, hbr, -⟩ := serJson_head x
  obtain ⟨R, hR⟩ := serItems_cons_shape x xs
  have hshape : serItems (x :: xs) ++ ']' :: rest = c :: (t ++ (R ++ ']' :: rest)) := by
    rw [hR, hcons]
    simp
  have step : parseValue (f + 1) ('[' :: (serItems (x :: xs) ++ ']' :: rest)) =
      (match skipWsP (serItems (x :: xs) ++ ']' :: rest) with
       | ']' :: r2 => .ok (.arr [], r2)
       | r2 => (parseItems f r2).map (fun p => (.arr p.1, p.2))) := by
    rw [parseValue, skipWsP_cons_of_not_ws (by decide)]
    rfl
  rw [step, hshape, skipWsP_cons_of_not_ws hws]
  simp [hbr]

theorem serEntries_cons_shape (k : String) (v : Json) (es : List (String × Json)) :
    ∃ R, serEntries ((k, v) :: es) = serStr k ++ ':' :: (serJson v ++ R) := by
  cases es with
  | nil => exact ⟨[], by simp [serEntries]⟩
  | cons e t => exact ⟨',' :: serEntries (e :: t), rfl⟩

/-- The object branch of `parseValue` on a non-empty serialized member list
reduces to `parseEntries`. -/
theorem parseValue_obj_cons (k : String) (v : Json) (es : List (String × Json))
    (f : Nat) (rest : List Char) :
    parseValue (f + 1) ('\x7b' :: (serEntries ((k, v) :: es) ++ '\x7d' :: rest)) =
      (parseEntries f (serEntries ((k, v) :: es) ++ '\x7d' :: rest)).map
        (fun p => (.obj p.1, p.2)) := by
  obtain ⟨R, hR⟩ := serEntries_cons_shape k v es
  have hshape : serEntries ((k, v) :: es) ++ '\x7d' :: rest =
      '"' :: ((k.data.flatMap escChar ++ ['"']) ++ (':' :: (serJson v ++ R) ++ '\x7d' :: rest)) := by
    rw [hR]
    simp [serStr]
  have step : parseValue (f + 1) ('\x7b' :: (serEntries ((k, v) :: es) ++ '\x7d' :: rest)) =
      (match skipWsP (serEntries ((k, v) :: es) ++ '\x7d' :: rest) with
       | '\x7d' :: r2 => .ok (.obj [], r2)
       | r2 => (parseEntries f r2).map (fun p => (.obj p.1, p.2))) := by
    rw [parseValue, skipWsP_cons_of_not_ws (by decide)]
    rfl
  rw [step, hshape, skipWsP_cons_of_not_ws (by decide)]
  simp


theorem numDelim_comma (x : List Char) : numDelim (',' :: x) = true := rfl

theorem numDelim_rbrack (x : List Char) : numDelim (']' :: x) = true := rfl

theorem numDelim_rbrace (x : List Char) : numDelim ('\x7d' :: x) = true := rfl

mutual
/-- The value codec round-trip: parsing a serialized value recovers it
exactly, leaving the remainder untouched, for any delimiter-headed
remainder and any fuel above the serialized length. -/
theorem rtVal : ∀ (j : Json) (fuel : Nat) (rest : List Char),
    (serJson j).length < fuel → numDelim rest = true →
    parseValue fuel (serJson j ++ rest) = .ok (j, rest)
  | .null, fuel, rest, hf, _ => by
      cases fuel with
      | zero => exact absurd hf (Nat.not_lt_zero _)
      | succ f =>
          rw [show serJson Json.null ++ rest = 'n' :: 'u' :: 'l' :: 'l' :: rest from rfl,
              parseValue, skipWsP_cons_of_not_ws (by decide)]
          rfl
  | .bool true, fuel, rest, hf, _ => by
      cases fuel with
      | zero => exact absurd hf (Nat.not_lt_zero _)
      | succ f =>
          rw [show serJson (Json.bool true) ++ rest = 't' :: 'r' :: 'u' :: 'e' :: rest from rfl,
              parseValue, skipWsP_cons_of_not_ws (by decide)]
          rfl
  | .bool false, fuel, rest, hf, _ => by
      cases fuel with
      | zero => exact absurd hf (Nat.not_lt_zero _)
      | succ f =>
          rw [show serJson (Json.bool false) ++ rest = 'f' :: 'a' :: 'l' :: 's' :: 'e' :: rest
                from rfl,
              parseValue, skipWsP_cons_of_not_ws (by decide)]
          rfl
  | .num i, fuel, rest, hf, hr => by
      cases fuel with
      | zero => exact absurd hf (Nat.not_lt_zero _)
      | succ f =>
          by_cases hneg : i < 0
          · have harg : serJson (.num i) ++ rest = '-' :: (natChars i.natAbs ++ rest) := by
              simp [serJson, intChars, hneg]
            have harg2 : '-' :: (natChars i.natAbs ++ rest) = intChars i ++ rest := by
              simp [intChars, hneg]
            rw [harg, parseValue_to_num f '-' _ (by decide) (by decide) (by decide),
                harg2, parseNumTok_intChars i rest hr]
            rfl
          · obtain ⟨d, ds, hnd, hd⟩ :
                ∃ d ds, natChars i.natAbs = d :: ds ∧ isDigitC d = true := by
              cases hnc : natChars i.natAbs with
              | nil => exact absurd hnc (natChars_ne_nil _)
              | cons d ds =>
                  exact ⟨d, ds, rfl, natChars_digits _ d (hnc ▸ List.mem_cons_self _ _)⟩
            have harg : serJson (.num i) ++ rest = d :: (ds ++ rest) := by
              simp [serJson, intChars, hneg, hnd]
            have harg2 : d :: (ds ++ rest) = intChars i ++ rest := by
              simp [intChars, hneg, hnd]
            rw [harg, parseValue_to_num f d _ (digit_not_wsChar hd)
                  ⟨digit_ne_char hd 'n' (by decide), digit_ne_char hd 't' (by decide),
                   digit_ne_char hd 'f' (by decide), digit_ne_char hd '"' (by decide),
                   digit_ne_char hd '[' (by decide), digit_ne_char hd '\x7b' (by decide)⟩
                  (by simp [hd]),
                harg2, parseNumTok_intChars i rest hr]
            rfl
  | .str s, fuel, rest, hf, _ => by
      cases fuel with
      | zero => exact absurd hf (Nat.not_lt_zero _)
      | succ f =>
          have harg : serJson (.str s) ++ rest = '"' :: (s.data.flatMap escChar ++ '"' :: rest) := by
            simp [serJson, serStr]
          rw [harg, parseValue, skipWsP_cons_of_not_ws (by decide)]
          simp [parseStrBody_serStr, Except.map]
  | .arr [], fuel, rest, hf, _ => by
      cases fuel with
      | zero => exact absurd hf (Nat.not_lt_zero _)
      | succ f =>
          rw [show serJson (Json.arr []) ++ rest = '[' :: ']' :: rest from by simp [serJson, serItems],
              parseValue, skipWsP_cons_of_not_ws (by decide)]
          rfl
  | .arr (x :: xs), fuel, rest, hf, _ => by
      cases fuel with
      | zero => exact absurd hf (Nat.not_lt_zero _)
      | succ f =>
          have harg : serJson (.arr (x :: xs)) ++ rest =
              '[' :: (serItems (x :: xs) ++ ']' :: rest) := by
            simp [serJson]
          have hfi : (serItems (x :: xs)).length + 1 < f := by
            simp only [serJson, List.length_cons, List.length_append,
                       List.length_singleton] at hf
            omega
          rw [harg, parseValue_arr_cons x xs f rest, rtItems x xs f rest hfi]
          rfl
  | .obj [], fuel, rest, hf, _ => by
      cases fuel with
      | zero => exact absurd hf (Nat.not_lt_zero _)
      | succ f =>
          rw [show serJson (Json.obj []) ++ rest = '\x7b' :: '\x7d' :: rest
                from by simp [serJson, serEntries],
              parseValue, skipWsP_cons_of_not_ws (by decide)]
          rfl
  | .obj ((k, v) :: es), fuel, rest, hf, _ => by
      cases fuel with
      | zero => exact absurd hf (Nat.not_lt_zero _)
      | succ f =>
          have harg : serJson (.obj ((k, v) :: es)) ++ rest =
              '\x7b' :: (serEntries ((k, v) :: es) ++ '\x7d' :: rest) := by
            simp [serJson]
          have hfi : (serEntries ((k, v) :: es)).length + 1 < f := by
            simp only [serJson, List.length_cons, List.length_append,
                       List.length_singleton] at hf
            omega
          rw [harg, parseValue_obj_cons k v es f rest, rtEntries k v es f rest hfi]
          rfl
termination_by j _ _ _ _ => sizeOf j

/-- The element-list codec round-trip, up to the closing bracket. -/
theorem rtItems : ∀ (x : Json) (xs : List Json) (fuel : Nat) (rest : List Char),
    (serItems (x :: xs)).length + 1 < fuel →
    parseItems fuel (serItems (x :: xs) ++ ']' :: rest) = .ok (x :: xs, rest)
  | x, [], fuel, rest, hf => by
      cases fuel with
      | zero => exact absurd hf (Nat.not_lt_zero _)
      | succ f =>
          have h1 : serItems [x] ++ ']' :: rest = serJson x ++ ']' :: rest := by
            simp [serItems]
          have hfx : (serJson x).length < f := by
            simp only [serItems] at hf
            omega
          rw [h1, parseItems, rtVal x f (']' :: rest) hfx (numDelim_rbrack rest)]
          rfl
  | x, y :: t, fuel, rest, hf => by
      cases fuel with
      | zero => exact absurd hf (Nat.not_lt_zero _)
      | succ f =>
          have hf' := hf
          simp only [serItems, List.length_append, List.length_cons] at hf'
          have hfx : (serJson x).length < f := by omega
          have hft : (serItems (y :: t)).length + 1 < f := by
            have := serJson_length_pos x
            omega
          have hsh : serItems (x :: y :: t) ++ ']' :: rest
              = serJson x ++ (',' :: (serItems (y :: t) ++ ']' :: rest)) := by
            simp [serItems]
          have hskip : skipWsP (',' :: (serItems (y :: t) ++ ']' :: rest)) =
              ',' :: (serItems (y :: t) ++ ']' :: rest) :=
            skipWsP_cons_of_not_ws (by decide) _
          have key := rtItems y t f rest hft
          rw [hsh, parseItems,
              rtVal x f (',' :: (serItems (y :: t) ++ ']' :: rest)) hfx (numDelim_comma _)]
          simp only [hskip, key]
          rfl
termination_by x xs _ _ _ => sizeOf x + sizeOf xs

/-- The member-list codec round-trip, up to the closing brace. -/
theorem rtEntries : ∀ (k : String) (v : Json) (es : List (String × Json))
    (fuel : Nat) (rest : List Char),
    (serEntries ((k, v) :: es)).length + 1 < fuel →
    parseEntries fuel (serEntries ((k, v) :: es) ++ '\x7d' :: rest) = .ok ((k, v) :: es, rest)
  | k, v, [], fuel, rest, hf => by
      cases fuel with
      | zero => exact absurd hf (Nat.not_lt_zero _)
      | succ f =>
          have hsh : serEntries [(k, v)] ++ '\x7d' :: rest
              = '"' :: (k.data.flatMap escChar ++ '"' :: (':' :: (serJson v ++ '\x7d' :: rest))) := by
            simp [serEntries, serStr]
          have hfv : (serJson v).length < f := by
            simp only [serEntries, serStr, List.length_append, List.length_cons] at hf
            omega
          have hskip : skipWsP (':' :: (serJson v ++ '\x7d' :: rest)) =
              ':' :: (serJson v ++ '\x7d' :: rest) :=
            skipWsP_cons_of_not_ws (by decide) _
          have key := rtVal v f ('\x7d' :: rest) hfv (numDelim_rbrace rest)
          have hskipEnd : skipWsP ('\x7d' :: rest) = '\x7d' :: rest :=
            skipWsP_cons_of_not_ws (by decide) _
          rw [hsh, parseEntries, skipWsP_cons_of_not_ws (by decide)]
          simp [parseStrBody_serStr, hskip, key, hskipEnd, Except.map]
  | k, v, (k2, v2) :: t, fuel, rest, hf => by
      cases fuel with
      | zero => exact absurd hf (Nat.not_lt_zero _)
      | succ f =>
          have hsh : serEntries ((k, v) :: (k2, v2) :: t) ++ '\x7d' :: rest
              = '"' :: (k.data.flatMap escChar ++ '"' ::
                  (':' :: (serJson v ++ (',' :: (serEntries ((k2, v2) :: t) ++ '\x7d' :: rest))))) := by
            simp [serEntries, serStr]
          have hfv : (serJson v).length < f := by
            simp only [serEntries, serStr, List.length_append, List.length_cons] at hf
            omega
          have hft : (serEntries ((k2, v2) :: t)).length + 1 < f := by
            simp only [serEntries, serStr, List.length_append, List.length_cons] at hf
            omega
          have hskip1 : skipWsP (':' :: (serJson v ++ (',' :: (serEntries ((k2, v2) :: t) ++ '\x7d' :: rest)))) =
              ':' :: (serJson v ++ (',' :: (serEntries ((k2, v2) :: t) ++ '\x7d' :: rest))) :=
            skipWsP_cons_of_not_ws (by decide) _
          have key1 := rtVal v f (',' :: (serEntries ((k2, v2) :: t) ++ '\x7d' :: rest)) hfv (numDelim_comma _)
          have hskip2 : skipWsP (',' :: (serEntries ((k2, v2) :: t) ++ '\x7d' :: rest)) =
              ',' :: (serEntries ((k2, v2) :: t) ++ '\x7d' :: rest) :=
            skipWsP_cons_of_not_ws (by decide) _
          have key2 := rtEntries k2 v2 t f rest hft
          rw [hsh, parseEntries, skipWsP_cons_of_not_ws (by decide)]
          simp [parseStrBody_serStr, hskip1, key1, hskip2, key2, Except.map]
termination_by _ v es _ _ _ => 1 + sizeOf v + sizeOf es
end

/-- The document codec round-trip (model of `from_str ∘ to_string = id`). -/
theorem parseJson_serJson (m : Json) : parseJson (serJson m) = .ok m := by
  have h := rtVal m ((serJson m).length + 1) [] (by omega) rfl
  rw [List.append_nil] at h
  rw [parseJson, h]
  rfl

/-! ## Round-trip of the framed transport -/

theorem readLine_exact {l : List Char} (hl : '\n' ∉ l) (r : List Char) :
    readLine (l ++ '\n' :: r) = (l ++ ['\n'], r) := by
  induction l with
  | nil => simp [readLine]
  | cons c t ih =>
      have hc : ¬ c = '\n' := fun h => hl (h ▸ List.mem_cons_self c t)
      have ht : '\n' ∉ t := fun h => hl (List.mem_cons_of_mem c h)
      simp [readLine, hc, ih ht]

theorem chopLead_self (p r : List Char) : chopLead p (p ++ r) = some r := by
  induction p with
  | nil => rfl
  | cons c t ih => simp [chopLead, ih]

theorem dropWhile_cons_of_neg {p : Char → Bool} {c : Char} (h : p c = false)
    (t : List Char) : List.dropWhile p (c :: t) = c :: t := by
  simp [List.dropWhile_cons, h]

/-- `Content-Length` never appears inside the tag characters. -/
theorem hdrTag_no_newline : '\n' ∉ hdrTag := by decide

theorem utf8Len_nil : utf8Len [] = 0 := rfl

theorem utf8Len_cons (c : Char) (t : List Char) :
    utf8Len (c :: t) = c.utf8Size + utf8Len t := by
  simp [utf8Len]

/-- Reading exactly the byte length of a prefix splits the stream there. -/
theorem takeUtf8_exact (s : List Char) : ∀ r : List Char,
    takeUtf8 (utf8Len s) (s ++ r) = some (s, r) := by
  induction s with
  | nil =>
      intro r
      rw [utf8Len_nil, List.nil_append]
      simp [takeUtf8]
  | cons c t ih =>
      intro r
      have hpos : 0 < c.utf8Size := Char.utf8Size_pos c
      rw [utf8Len_cons]
      obtain ⟨u, hu⟩ : ∃ u, c.utf8Size = u + 1 := ⟨c.utf8Size - 1, by omega⟩
      have harith : c.utf8Size + utf8Len t = (u + utf8Len t) + 1 := by omega
      rw [harith, List.cons_append, takeUtf8]
      rw [if_pos (by omega)]
      have harith2 : u + utf8Len t + 1 - c.utf8Size = utf8Len t := by omega
      rw [harith2, ih r]
      rfl

/-- The digits of a length are newline-free. -/
theorem natChars_no_newline (n : Nat) : '\n' ∉ natChars n := by
  intro h
  have := natChars_digits n '\n' h
  exact absurd this (by decide)

/-- Trimming the header line drops exactly the `\r\n` tail. -/
theorem trimRust_header (n : Nat) :
    trimRust (hdrTag ++ ' ' :: natChars n ++ ['\r', '\n']) = hdrTag ++ ' ' :: natChars n := by
  obtain ⟨d, ds, hnd, hd⟩ :
      ∃ d ds, natChars n = d :: ds ∧ isDigitC d = true := by
    cases hnc : natChars n with
    | nil => exact absurd hnc (natChars_ne_nil _)
    | cons d ds =>
        exact ⟨d, ds, rfl, natChars_digits _ d (hnc ▸ List.mem_cons_self _ _)⟩
  rw [trimRust]
  have h1 : List.dropWhile isRustWs (hdrTag ++ ' ' :: natChars n ++ ['\r', '\n']) =
      hdrTag ++ ' ' :: natChars n ++ ['\r', '\n'] := by
    rw [show hdrTag ++ ' ' :: natChars n ++ ['\r', '\n'] =
          'C' :: (hdrTag.tail ++ ' ' :: natChars n ++ ['\r', '\n']) from rfl]
    exact dropWhile_cons_of_neg (by decide) _
  rw [h1]
  have h2 : (hdrTag ++ ' ' :: natChars n ++ ['\r', '\n']).reverse =
      '\n' :: '\r' :: ((natChars n).reverse ++ (' ' :: hdrTag.reverse)) := by
    simp
  rw [h2]
  have h3 : List.dropWhile isRustWs
      ('\n' :: '\r' :: ((natChars n).reverse ++ (' ' :: hdrTag.reverse))) =
      (natChars n).reverse ++ (' ' :: hdrTag.reverse) := by
    rw [List.dropWhile_cons]
    rw [if_pos (by decide)]
    rw [List.dropWhile_cons]
    rw [if_pos (by decide)]
    have hrev : (natChars n).reverse = ds.reverse ++ [d] := by
      rw [hnd]
      simp
    rw [hrev]
    cases hds : ds.reverse with
    | nil =>
        simp only [List.nil_append, List.singleton_append]
        exact dropWhile_cons_of_neg (digit_not_rustWs hd) _
    | cons e es =>
        have he : isDigitC e = true := by
          have : e ∈ natChars n := by
            rw [hnd]
            have : e ∈ ds := by
              rw [← List.mem_reverse, hds]
              exact List.mem_cons_self _ _
            exact List.mem_cons_of_mem _ this
          exact natChars_digits n e this
        simp only [List.cons_append]
        exact dropWhile_cons_of_neg (digit_not_rustWs he) _
  rw [h3]
  simp

/-- Trimming the stripped header value leaves the bare digits. -/
theorem trimRust_space_digits (n : Nat) :
    trimRust (' ' :: natChars n) = natChars n := by
  obtain ⟨d, ds, hnd, hd⟩ :
      ∃ d ds, natChars n = d :: ds ∧ isDigitC d = true := by
    cases hnc : natChars n with
    | nil => exact absurd hnc (natChars_ne_nil _)
    | cons d ds =>
        exact ⟨d, ds, rfl, natChars_digits _ d (hnc ▸ List.mem_cons_self _ _)⟩
  rw [trimRust]
  have h1 : List.dropWhile isRustWs (' ' :: natChars n) = natChars n := by
    rw [List.dropWhile_cons, if_pos (by decide), hnd]
    exact dropWhile_cons_of_neg (digit_not_rustWs hd) _
  rw [h1]
  have h2 : List.dropWhile isRustWs (natChars n).reverse = (natChars n).reverse := by
    cases hrev : (natChars n).reverse with
    | nil => rfl
    | cons e es =>
        have he : isDigitC e = true := by
          have : e ∈ natChars n := by
            rw [← List.mem_reverse, hrev]
            exact List.mem_cons_self _ _
          exact natChars_digits n e this
        exact dropWhile_cons_of_neg (digit_not_rustWs he) _
  rw [h2]
  simp

theorem parseNatRust_natChars (n : Nat) : parseNatRust (natChars n) = some n := by
  have hne : (natChars n).isEmpty = false := by
    cases hnc : natChars n with
    | nil => exact absurd hnc (natChars_ne_nil _)
    | cons d ds => rfl
  have hall : (natChars n).all isDigitC = true :=
    List.all_eq_true.mpr (fun c hc => natChars_digits n c hc)
  rw [parseNatRust, hne, hall]
  simp [digitsToNat_natChars]

/-- Reading a framed message off the front of a stream recovers exactly the
written message and leaves the rest of the stream. -/
theorem read_message_frame (m : Json) (extra : List Char) :
    read_message (write_message m ++ extra) = .ok (m, extra) := by
  have hAnl : '\n' ∉ (hdrTag ++ ' ' :: (natChars (utf8Len (serJson m)) ++ ['\r'])) := by
    intro h
    rcases List.mem_append.mp h with h1 | h2
    · exact absurd h1 (by decide)
    · rcases List.mem_cons.mp h2 with h3 | h4
      · exact absurd h3 (by decide)
      · rcases List.mem_append.mp h4 with h5 | h6
        · exact natChars_no_newline _ h5
        · exact absurd h6 (by decide)
  have hinput : write_message m ++ extra =
      (hdrTag ++ ' ' :: (natChars (utf8Len (serJson m)) ++ ['\r'])) ++
        '\n' :: ('\r' :: '\n' :: (serJson m ++ extra)) := by
    rw [write_message, contentHeader]
    simp
  have hrl : readLine (write_message m ++ extra) =
      ((hdrTag ++ ' ' :: (natChars (utf8Len (serJson m)) ++ ['\r'])) ++ ['\n'],
       '\r' :: '\n' :: (serJson m ++ extra)) := by
    rw [hinput]
    exact readLine_exact hAnl _
  have hline1 : (hdrTag ++ ' ' :: (natChars (utf8Len (serJson m)) ++ ['\r'])) ++ ['\n'] =
      hdrTag ++ ' ' :: natChars (utf8Len (serJson m)) ++ ['\r', '\n'] := by
    simp
  have htrim : trimRust ((hdrTag ++ ' ' :: (natChars (utf8Len (serJson m)) ++ ['\r'])) ++ ['\n']) =
      hdrTag ++ ' ' :: natChars (utf8Len (serJson m)) := by
    rw [hline1]
    exact trimRust_header _
  have hie : (write_message m ++ extra).isEmpty = false := by
    rw [hinput]
    rfl
  have hne1 : (hdrTag ++ ' ' :: natChars (utf8Len (serJson m))).isEmpty = false := rfl
  have hhead : (hdrTag ++ ' ' :: natChars (utf8Len (serJson m))).head? = some 'C' := rfl
  have hscan : scanStart ((write_message m ++ extra).length + 1) (write_message m ++ extra) =
      .ok (.inr (hdrTag ++ ' ' :: natChars (utf8Len (serJson m)),
                 '\r' :: '\n' :: (serJson m ++ extra))) := by
    rw [scanStart]
    simp only [hie, hrl, htrim, hne1, hhead, Bool.false_eq_true, if_false]
    rw [if_neg (by simp)]
  have hupd : updateCl none (hdrTag ++ ' ' :: natChars (utf8Len (serJson m))) =
      some (utf8Len (serJson m)) := by
    rw [updateCl, show hdrTag ++ ' ' :: natChars (utf8Len (serJson m)) =
          hdrTag ++ (' ' :: natChars (utf8Len (serJson m))) from rfl,
        chopLead_self]
    show parseNatRust (trimRust (' ' :: natChars (utf8Len (serJson m)))) =
      some (utf8Len (serJson m))
    rw [trimRust_space_digits, parseNatRust_natChars]
  have hhdr : readHeaderLines (('\r' :: '\n' :: (serJson m ++ extra)).length + 1)
      (some (utf8Len (serJson m))) ('\r' :: '\n' :: (serJson m ++ extra)) =
      .ok (some (utf8Len (serJson m)), serJson m ++ extra) := by
    rw [readHeaderLines]
    simp [show readLine ('\r' :: '\n' :: (serJson m ++ extra)) =
            (['\r', '\n'], serJson m ++ extra) from rfl,
          show trimRust ['\r', '\n'] = [] from rfl]
  rw [read_message, hscan]
  simp only [hupd, hhdr, takeUtf8_exact (serJson m) extra, parseJson_serJson]

/-- Claim C2: the transport round-trip law. For every JSON message `m`,
decoding the bytes produced by the length-prefixed encoder yields `m` again
and consumes the stream exactly:
`read_message (write_message m) = ok (m, [])`, where `write_message` emits
`Content-Length: <N>\r\n\r\n` with `N` the exact byte length of the compact
serialization, followed by the payload bytes. -/
theorem read_message_write_message (m : Json) :
    read_message (write_message m) = .ok (m, []) := by
  have h := read_message_frame m []
  rwa [List.append_nil] at h
